import Mathlib

/-!
Verification development for the story-ingestion core of the
spectrum-podcast repository: time-window filtering, tracking-URL
unwrapping and redirect resolution, heuristic and AI-assisted newsletter
link extraction, and the multi-source story dispatcher.

The TypeScript sources are embedded shallowly: pure functions become Lean
functions, network calls become explicit oracle parameters, and thrown
exceptions become values of Except.  External library behaviour that the
code relies on (the WHATWG URL parser, URLSearchParams decoding,
decodeURIComponent, JSON.parse) is modelled by executable Lean functions,
restricted to the input shapes this code base exercises; every such
restriction is stated in the corresponding doc comment.  Timestamps are
modelled as Int milliseconds since the epoch, matching Date.getTime().
-/

/- ===================== String utilities ===================== -/

/-- Model of JavaScript String.prototype.startsWith. -/
def strStartsWith (s p : String) : Bool :=
  p.toList.isPrefixOf s.toList

/-- Substring search on character lists. -/
def listContains (l sub : List Char) : Bool :=
  sub.isPrefixOf l ||
    match l with
    | [] => false
    | _ :: t => listContains t sub

/-- Model of JavaScript String.prototype.includes (substring containment). -/
def strContainsStr (s sub : String) : Bool :=
  listContains s.toList sub.toList

/-- Model of JavaScript String.prototype.toLowerCase, restricted to ASCII
case mapping (the code only compares ASCII keywords). -/
def strToLower (s : String) : String :=
  ⟨s.toList.map Char.toLower⟩

/-- Whitespace as String.prototype.trim sees it, restricted to ASCII. -/
def isJsWs (c : Char) : Bool :=
  c.isWhitespace ∨ c = Char.ofNat 11 ∨ c = Char.ofNat 12

/-- Model of JavaScript String.prototype.trim (ASCII whitespace). -/
def strTrim (s : String) : String :=
  ⟨((s.toList.dropWhile isJsWs).reverse.dropWhile isJsWs).reverse⟩

/-- Model of JavaScript String.prototype.endsWith. -/
def strEndsWith (s p : String) : Bool :=
  p.toList.reverse.isPrefixOf s.toList.reverse

/-- Split a character list on a separator character, keeping empty
segments, as JavaScript split does. -/
def splitOnChar (sep : Char) : List Char → List (List Char)
  | [] => [[]]
  | c :: rest =>
    if c = sep then [] :: splitOnChar sep rest
    else
      match splitOnChar sep rest with
      | g :: gs => (c :: g) :: gs
      | [] => [[c]]

/-- Model of str.split(sep) for the one-character separators the code
uses. -/
def strSplitOn (s sep : String) : List String :=
  match sep.toList with
  | [c] => (splitOnChar c s.toList).map fun g => ⟨g⟩
  | _ => [s]

/-- Value of an ASCII hex digit. -/
def hexVal (c : Char) : Option Nat :=
  if c.isDigit then some (c.toNat - 48)
  else if 'a' ≤ c ∧ c ≤ 'f' then some (c.toNat - 87)
  else if 'A' ≤ c ∧ c ≤ 'F' then some (c.toNat - 55)
  else none

/- ============== Percent decoding (decodeURIComponent / form decoding) ============== -/

/-- A token of a percent-encoded string: a raw character or a decoded byte. -/
inductive PTok where
  | raw (c : Char)
  | byte (b : Nat)
deriving Repr, DecidableEq

/-- Scan a character list into percent tokens.  In strict mode (ECMAScript
decodeURIComponent) a percent sign not followed by two hex digits is an
error (none); in lenient mode (WHATWG form decoding) it is kept literally. -/
def percentTokens (strict : Bool) : Nat → List Char → Option (List PTok)
  | _, [] => some []
  | 0, _ => none
  | fuel + 1, c :: rest =>
    if c = '%' then
      match rest with
      | h1 :: h2 :: rest2 =>
        match hexVal h1, hexVal h2 with
        | some a, some b => (percentTokens strict fuel rest2).map (PTok.byte (a * 16 + b) :: ·)
        | _, _ =>
          if strict then none
          else (percentTokens strict fuel rest).map (PTok.raw c :: ·)
      | _ =>
        if strict then none
        else (percentTokens strict fuel rest).map (PTok.raw c :: ·)
    else (percentTokens strict fuel rest).map (PTok.raw c :: ·)

/-- The Unicode replacement character. -/
def replChar : Char := Char.ofNat 0xFFFD

/-- Decode one UTF-8 sequence from the front of a byte list.  Returns the
code point and the remaining bytes, or none if the front is not a valid
sequence (invalid leading byte, bad continuation, overlong form,
surrogate, or out of range). -/
def utf8DecodeOne : List Nat → Option (Nat × List Nat)
  | [] => none
  | b :: rest =>
    if b < 0x80 then some (b, rest)
    else if b < 0xC0 then none
    else if b < 0xE0 then
      match rest with
      | c1 :: rest2 =>
        if 0x80 ≤ c1 ∧ c1 < 0xC0 then
          let cp := (b - 0xC0) * 64 + (c1 - 0x80)
          if cp < 0x80 then none else some (cp, rest2)
        else none
      | _ => none
    else if b < 0xF0 then
      match rest with
      | c1 :: c2 :: rest2 =>
        if (0x80 ≤ c1 ∧ c1 < 0xC0) ∧ (0x80 ≤ c2 ∧ c2 < 0xC0) then
          let cp := (b - 0xE0) * 4096 + (c1 - 0x80) * 64 + (c2 - 0x80)
          if cp < 0x800 ∨ (0xD800 ≤ cp ∧ cp ≤ 0xDFFF) then none else some (cp, rest2)
        else none
      | _ => none
    else if b < 0xF8 then
      match rest with
      | c1 :: c2 :: c3 :: rest2 =>
        if (0x80 ≤ c1 ∧ c1 < 0xC0) ∧ (0x80 ≤ c2 ∧ c2 < 0xC0) ∧ (0x80 ≤ c3 ∧ c3 < 0xC0) then
          let cp := (b - 0xF0) * 262144 + (c1 - 0x80) * 4096 + (c2 - 0x80) * 64 + (c3 - 0x80)
          if cp < 0x10000 ∨ 0x10FFFF < cp then none else some (cp, rest2)
        else none
      | _ => none
    else none

/-- Turn a percent-token list into characters.  Runs of decoded bytes are
interpreted as UTF-8: strict mode fails on any invalid sequence
(modelling the URIError thrown by decodeURIComponent); lenient mode emits
a replacement character and skips one byte (approximating WHATWG
replacement decoding). -/
def decodePTokens (strict : Bool) : Nat → List PTok → Option (List Char)
  | _, [] => some []
  | 0, _ => none
  | fuel + 1, PTok.raw c :: rest => (decodePTokens strict fuel rest).map (c :: ·)
  | fuel + 1, PTok.byte b :: rest =>
    let run := b :: (rest.takeWhile fun t => match t with | PTok.byte _ => true | _ => false).map
      (fun t => match t with | PTok.byte x => x | _ => 0)
    let tail := rest.dropWhile fun t => match t with | PTok.byte _ => true | _ => false
    match utf8DecodeOne run with
    | some (cp, remBytes) =>
      (decodePTokens strict fuel (remBytes.map PTok.byte ++ tail)).map (Char.ofNat cp :: ·)
    | none =>
      if strict then none
      else (decodePTokens strict fuel ((run.drop 1).map PTok.byte ++ tail)).map (replChar :: ·)

/-- Model of ECMAScript decodeURIComponent: strict percent decoding with
UTF-8 validation; none models a thrown URIError. -/
def decodeURIComponent (s : String) : Option String :=
  match percentTokens true (s.length + 1) s.toList with
  | none => none
  | some toks =>
    match decodePTokens true (2 * s.length + 2) toks with
    | none => none
    | some cs => some ⟨cs⟩

/-- Model of WHATWG application/x-www-form-urlencoded value decoding, as
used by URLSearchParams: plus becomes space, valid percent escapes are
decoded (UTF-8 with replacement on error), invalid escapes are kept
literally.  Never fails. -/
def formDecode (s : String) : String :=
  let plussed : List Char := s.toList.map fun c => if c = '+' then ' ' else c
  match percentTokens false (s.length + 1) plussed with
  | none => s
  | some toks =>
    match decodePTokens false (2 * s.length + 2) toks with
    | none => s
    | some cs => ⟨cs⟩

/- ===================== URL model ===================== -/

/-- A parsed URL, as observed through the properties the code uses:
scheme, hostname (without port), port, pathname, search and hash. -/
structure Url where
  scheme : String
  hasAuthority : Bool
  host : String
  port : Option Nat
  path : String
  query : Option String
  fragment : Option String
deriving Repr, DecidableEq

/-- Schemes the WHATWG standard treats as special, among those this model
recognises. -/
def specialSchemes : List String := ["http", "https", "ws", "wss", "ftp"]

def isSchemeStartChar (c : Char) : Bool := c.isAlpha

def isSchemeChar (c : Char) : Bool :=
  c.isAlphanum || c = '+' || c = '-' || c = '.'

def isHostChar (c : Char) : Bool :=
  c.isAlphanum || c = '.' || c = '-' || c = '_'

def defaultPort (scheme : String) : Option Nat :=
  if scheme = "http" ∨ scheme = "ws" then some 80
  else if scheme = "https" ∨ scheme = "wss" then some 443
  else if scheme = "ftp" then some 21
  else none

/-- Split path / query / fragment off the part of a URL that follows the
authority (or the scheme, for opaque-path URLs). -/
def splitPathQueryFrag (cs : List Char) : String × Option String × Option String :=
  let pathCs := cs.takeWhile fun c => c ≠ '?' ∧ c ≠ '#'
  let rest := cs.dropWhile fun c => c ≠ '?' ∧ c ≠ '#'
  match rest with
  | [] => (⟨pathCs⟩, none, none)
  | c :: tail =>
    if c = '?' then
      let qCs := tail.takeWhile fun x => x ≠ '#'
      let rest2 := tail.dropWhile fun x => x ≠ '#'
      match rest2 with
      | [] => (⟨pathCs⟩, some ⟨qCs⟩, none)
      | _ :: fCs => (⟨pathCs⟩, some ⟨qCs⟩, some ⟨fCs⟩)
    else (⟨pathCs⟩, none, some ⟨tail⟩)

/-- Parse decimal digits into a number; none if any character is not a digit. -/
def parseDigits (cs : List Char) : Option Nat :=
  if cs.all Char.isDigit then
    some (cs.foldl (fun acc c => acc * 10 + (c.toNat - 48)) 0)
  else none

/-- Model of the WHATWG URL parser (the behaviour of JavaScript
new URL(input) on an absolute input), covering the shapes this code
exercises: scheme://host[:port][/path][?query][#fragment] for special
schemes, authority-less opaque paths for non-special schemes (for example
mailto: or javascript: links), lowercasing of scheme and hostname,
removal of default ports, and a default pathname of a single slash.
Outside the model (parse failure where the real parser may accept):
userinfo, IPv6 bracket hosts, percent escapes or exotic characters in the
hostname, special-scheme URLs written without a double slash, and tab or
newline stripping.  Percent-encoding normalisation of paths is not
applied; paths, queries and fragments are kept verbatim. -/
def parseUrl (s : String) : Option Url :=
  let cs := s.toList
  let schemeCs := cs.takeWhile fun c => c ≠ ':'
  let afterScheme := cs.dropWhile fun c => c ≠ ':'
  match afterScheme with
  | [] => none
  | _ :: rest =>
    if schemeCs = [] then none
    else if ¬ (isSchemeStartChar schemeCs.head! ∧ schemeCs.all isSchemeChar) then none
    else
      let scheme := strToLower ⟨schemeCs⟩
      let special := specialSchemes.contains scheme
      match rest with
      | '/' :: '/' :: afterSlashes =>
        let authCs := afterSlashes.takeWhile fun c => c ≠ '/' ∧ c ≠ '?' ∧ c ≠ '#'
        let remainder := afterSlashes.dropWhile fun c => c ≠ '/' ∧ c ≠ '?' ∧ c ≠ '#'
        if authCs.any fun c => c = '@' ∨ c = '[' ∨ c = ']' then none
        else
          let hostCs := authCs.takeWhile fun c => c ≠ ':'
          let portPart := authCs.dropWhile fun c => c ≠ ':'
          let host := strToLower ⟨hostCs⟩
          if ¬ hostCs.all isHostChar then none
          else if host = "" ∧ special then none
          else
            let portRes : Option (Option Nat) :=
              match portPart with
              | [] => some none
              | _ :: pCs =>
                if pCs = [] then some none
                else match parseDigits pCs with
                  | none => none
                  | some p => some (if defaultPort scheme = some p then none else some p)
            match portRes with
            | none => none
            | some port =>
              let (path, query, fragment) := splitPathQueryFrag remainder
              let path := if path = "" then "/" else path
              some ⟨scheme, true, host, port, path, query, fragment⟩
      | _ =>
        if special then none
        else
          let (path, query, fragment) := splitPathQueryFrag rest
          some ⟨scheme, false, "", none, path, query, fragment⟩

/-- Model of URL serialisation (url.toString() / url.href) for URLs
produced by parseUrl. -/
def serializeUrl (u : Url) : String :=
  u.scheme ++ (if u.hasAuthority then "://" else ":") ++ u.host ++
    (match u.port with
     | some p => ":" ++ toString p
     | none => "") ++
    u.path ++
    (match u.query with
     | some q => "?" ++ q
     | none => "") ++
    (match u.fragment with
     | some f => "#" ++ f
     | none => "")

/-- Model of url.origin for URLs with an authority. -/
def urlOrigin (u : Url) : String :=
  u.scheme ++ "://" ++ u.host ++
    (match u.port with
     | some p => ":" ++ toString p
     | none => "")

/-- Parse a query string into name-value pairs with form-urlencoded
decoding, as URLSearchParams does. -/
def parseFormPairs (q : String) : List (String × String) :=
  (strSplitOn q "&").filterMap fun part =>
    if part = "" then none
    else
      let cs := part.toList
      let nameCs := cs.takeWhile fun c => c ≠ '='
      let rest := cs.dropWhile fun c => c ≠ '='
      match rest with
      | [] => some (formDecode ⟨nameCs⟩, "")
      | _ :: vCs => some (formDecode ⟨nameCs⟩, formDecode ⟨vCs⟩)

/-- Model of url.searchParams.get(name): the value of the first pair with
the given name, or none (null). -/
def searchParamsGet (u : Url) (name : String) : Option String :=
  match u.query with
  | none => none
  | some q => ((parseFormPairs q).find? fun p => p.1 = name).map Prod.snd

/- ===================== Tracking-link resolver ===================== -/

/-- Hostname keywords identifying newsletter click-tracking redirectors. -/
def trackingHostnames : List String :=
  ["list-manage.com", "campaign-archive.com", "mailchi.mp", "clicks", "links"]

/-- The ordered query-parameter names probed when unwrapping a tracking URL. -/
def unwrapCandidateKeys : List String :=
  ["url", "u", "redirect", "link", "r", "destination"]

/-- Whether a hostname matches the tracking list (hostname.includes(keyword)). -/
def isTrackingHostname (hostname : String) : Bool :=
  trackingHostnames.any fun kw => strContainsStr hostname kw

/-- Whether a parsed URL is classified as a tracking link: tracking
hostname, or a path containing the /track/ segment. -/
def isTrackingUrlParsed (u : Url) : Bool :=
  isTrackingHostname (strToLower u.host) || strContainsStr (strToLower u.path) "/track/"

/-- Whether unwrapTrackingUrl classifies the given href as a tracking link
(false as well when the href does not parse). -/
def isTrackingCandidate (href : String) : Bool :=
  match parseUrl href with
  | none => false
  | some u => isTrackingUrlParsed u

/-- The candidate-key scan of unwrapTrackingUrl: probe the keys in order;
a missing or empty value is skipped; a value whose decodeURIComponent
throws aborts the whole call (Except.error, the uncaught URIError); a
decoded value starting with an http or https scheme is returned as the
unwrapped target. -/
def unwrapScanKeys (u : Url) (href : String) : List String → Except Unit (String × Bool)
  | [] => Except.ok (href, false)
  | k :: rest =>
    match searchParamsGet u k with
    | none => unwrapScanKeys u href rest
    | some v =>
      if v = "" then unwrapScanKeys u href rest
      else
        match decodeURIComponent v with
        | none => Except.error ()
        | some decoded =>
          if strStartsWith decoded "http://" || strStartsWith decoded "https://" then
            Except.ok (decoded, true)
          else unwrapScanKeys u href rest

/-- Embedding of unwrapTrackingUrl (src/unnamed/part_012).  The TypeScript
function is synchronous and performs no network call; Except.error models
the URIError that decodeURIComponent throws on an undecodable parameter
value, which the function does not catch. -/
def unwrapTrackingUrl (href : String) : Except Unit (String × Bool) :=
  match parseUrl href with
  | none => Except.ok (href, false)
  | some u =>
    if ¬ isTrackingUrlParsed u then Except.ok (href, false)
    else unwrapScanKeys u href unwrapCandidateKeys

/-- Association-list lookup modelling Map.get. -/
def assocGet (cache : List (String × String)) (k : String) : Option String :=
  (cache.find? fun p => p.1 = k).map Prod.snd

/-- Association-list update modelling Map.set (replaces an existing key,
otherwise appends). -/
def assocSet (cache : List (String × String)) (k v : String) : List (String × String) :=
  if (cache.find? fun p => p.1 = k).isSome then
    cache.map fun p => if p.1 = k then (k, v) else p
  else cache ++ [(k, v)]

/-- Outcome of the manual-redirect GET probe, as an oracle value:
none is a network error or timeout; some none is a response whose
Location header is absent; some (some loc) is a response carrying
Location loc. -/
def RedirectOracle := String → Option (Option String)

/-- Model of new URL(location, origin).toString() for the root-relative
locations the code encounters; for locations already starting with http
the code takes them verbatim without this resolution. -/
def resolveLocationAgainst (origin location : String) : String :=
  origin ++ location

/-- Embedding of resolveTrackingRedirect (src/unnamed/part_012).  Returns
the resolved href, the updated per-run cache, and whether an HTTP request
was issued.  The function is total: every failure path falls back to the
original href (the TypeScript catch swallows all fetch errors). -/
def resolveTrackingRedirect (href : String) (oracle : RedirectOracle)
    (cache : List (String × String)) : String × List (String × String) × Bool :=
  match assocGet cache href with
  | some v => (if v = "" then href else v, cache, false)
  | none =>
    match parseUrl href with
    | none => (href, assocSet cache href href, false)
    | some u =>
      match oracle href with
      | none => (href, assocSet cache href href, true)
      | some none => (href, assocSet cache href href, true)
      | some (some location) =>
        if location = "" then (href, assocSet cache href href, true)
        else
          let resolved :=
            if strStartsWith location "http" then location
            else resolveLocationAgainst (urlOrigin u) location
          (resolved, assocSet cache href resolved, true)

/- ===================== Heuristic link extraction ===================== -/

/-- Link-extraction rules (src/unnamed/part_009).  Optional fields model
TypeScript optional properties; none is an absent property. -/
structure LinkRules where
  excludeText : Option (List String) := none
  includeDomains : Option (List String) := none
  excludeDomains : Option (List String) := none
  includePathKeywords : Option (List String) := none
  excludePathKeywords : Option (List String) := none
  minArticleScore : Option Int := none
  minTextLength : Option Int := none
  debug : Option Bool := none
  debugMaxLinks : Option Nat := none
  resolveTrackingLinks : Option Bool := none
  preferOnlineVersion : Option Bool := none
deriving Repr, DecidableEq

/-- Default display-text exclusion vocabulary. -/
def defaultExcludeText : List String :=
  ["unsubscribe", "subscribe", "privacy", "terms", "terms and conditions",
   "contact", "manage preferences", "preferences", "forward", "share",
   "tweet", "facebook", "twitter", "linkedin", "instagram", "youtube", "rss"]

/-- Default path-keyword exclusion list. -/
def defaultExcludePathKeywords : List String :=
  ["/webinar/", "/category/", "/unsubscribe", "/subscribe", "/privacy",
   "/terms", "/contact"]

/-- Embedding of matchesAny: case-insensitive substring match of any
pattern in the text. -/
def matchesAny (text : String) (patterns : List String) : Bool :=
  if patterns = [] then false
  else patterns.any fun pat => strContainsStr (strToLower text) (strToLower pat)

/-- Embedding of normalizeUrlPath. -/
def normalizeUrlPath (pathname : String) : String :=
  if pathname = "" then "" else strToLower pathname

/-- Embedding of getUrlPathDepth: number of non-empty slash-separated
segments. -/
def getUrlPathDepth (pathname : String) : Nat :=
  ((strSplitOn pathname "/").filter fun s => s ≠ "").length

/-- Embedding of getLastPathSegment. -/
def getLastPathSegment (pathname : String) : String :=
  match ((strSplitOn pathname "/").filter fun s => s ≠ "").getLast? with
  | some s => s
  | none => ""

/-- Embedding of scoreArticleLink (src/unnamed/part_012): -1 when the href
does not parse, otherwise the sum of four independent 0/1 heuristics.
Display-text length is the Lean character count; for the ASCII texts the
heuristics target this coincides with the JavaScript UTF-16 length. -/
def scoreArticleLink (href text : String) (rules : Option LinkRules) : Int :=
  let minTextLength := (rules.bind LinkRules.minTextLength).getD 8
  match parseUrl href with
  | none => -1
  | some u =>
    let path := normalizeUrlPath u.path
    let s1 : Int := if 2 ≤ getUrlPathDepth path then 1 else 0
    let lastSegment := getLastPathSegment path
    let s2 : Int :=
      if 10 ≤ lastSegment.length ∧ lastSegment.toList.any (fun c => c = '-' ∨ c = '_') then 1
      else 0
    let s3 : Int :=
      match rules.bind LinkRules.includePathKeywords with
      | some ks =>
        if ks ≠ [] ∧ ks.any (fun kw => strContainsStr path (strToLower kw)) then 1 else 0
      | none => 0
    let s4 : Int := if minTextLength ≤ (text.length : Int) then 1 else 0
    s1 + s2 + s3 + s4

/-- A link candidate inside extractLinks, after anchor collection and the
static unwrap of its raw href. -/
structure ExtLink where
  href : String
  text : String
  unwrapped : Bool
deriving Repr, DecidableEq

/-- The hostname of an href, lowercased, or the empty string when the href
does not parse (the inline try/catch of extractLinks). -/
def hostnameOrEmpty (href : String) : String :=
  match parseUrl href with
  | none => ""
  | some u => strToLower u.host

/-- The tracking-resolution step of extractLinks applied to one link: a
link that was not statically unwrapped and whose hostname matches the
tracking list goes through resolveTrackingRedirect.  The per-run cache is
threaded through the oracle being a fixed function of the href, which
makes the memoized and unmemoized results coincide. -/
def resolveLinkStep (oracle : RedirectOracle) (link : ExtLink) : ExtLink :=
  if link.unwrapped then link
  else
    let hostname := hostnameOrEmpty link.href
    if isTrackingHostname hostname then
      { link with href := (resolveTrackingRedirect link.href oracle []).1 }
    else link

/-- The tracking-resolution fan-out of extractLinks, request-counting
view.  The TypeScript issues all per-link resolutions at once with
Promise.all over a trackingCache created immediately beforehand; every
callback runs synchronously up to its first await, so each one consults
the cache - still empty at fan-out time - and reaches its fetch before
any response has resolved; the cache is only written in the
continuations.  Hence every link that enters resolveTrackingRedirect
does so against the empty cache, duplicates included.  Returns the
resolved links together with the number of HTTP requests the fan-out
issues. -/
def resolveLinksFanOut (oracle : RedirectOracle) : List ExtLink → List ExtLink × Nat
  | [] => ([], 0)
  | l :: rest =>
    let tail := resolveLinksFanOut oracle rest
    if l.unwrapped then (l :: tail.1, tail.2)
    else if isTrackingHostname (hostnameOrEmpty l.href) then
      ({ l with href := (resolveTrackingRedirect l.href oracle []).1 } :: tail.1,
        (if (resolveTrackingRedirect l.href oracle []).2.2 then 1 else 0) + tail.2)
    else (l :: tail.1, tail.2)

/-- The display-text / exclusion filter stage of extractLinks. -/
def textFilterStep (rules : Option LinkRules) (links : List ExtLink) : List ExtLink :=
  links.filter fun link =>
    if link.href = "" then false
    else
      let excludeText := defaultExcludeText ++ ((rules.bind LinkRules.excludeText).getD [])
      ¬ matchesAny link.text excludeText

/-- One Map.set step of the dedup-by-href stage: a new href is appended;
an existing entry is replaced in place when the incoming link has a
non-empty, strictly longer display text. -/
def dedupUpsert (acc : List ExtLink) (link : ExtLink) : List ExtLink :=
  match acc with
  | [] => [link]
  | x :: xs =>
    if x.href = link.href then
      (if link.text ≠ "" ∧ x.text.length < link.text.length then link else x) :: xs
    else x :: dedupUpsert xs link

/-- The dedup-by-href stage of extractLinks (JavaScript Map insertion
order: first insertion fixes the position, later hits may replace the
value). -/
def dedupByHref (links : List ExtLink) : List ExtLink :=
  links.foldl dedupUpsert []

/-- The domain include/exclude filter stage of extractLinks. -/
def domainFilterStep (rules : Option LinkRules) (links : List ExtLink) : List ExtLink :=
  links.filter fun link =>
    match rules.bind LinkRules.includeDomains, rules.bind LinkRules.excludeDomains with
    | none, none => true
    | inc, exc =>
      match parseUrl link.href with
      | none => false
      | some u =>
        let hostname := u.host
        let incOk :=
          match inc with
          | some ds => if ds ≠ [] then ds.any (fun d => strContainsStr hostname d) else true
          | none => true
        let excOk :=
          match exc with
          | some ds => if ds ≠ [] then ¬ ds.any (fun d => strContainsStr hostname d) else true
          | none => true
        incOk && excOk

/-- The path-keyword exclusion stage of extractLinks; an href that fails
to parse is rejected by the catch branch. -/
def pathFilterStep (rules : Option LinkRules) (links : List ExtLink) : List ExtLink :=
  links.filter fun link =>
    let excludePathKeywords :=
      defaultExcludePathKeywords ++ ((rules.bind LinkRules.excludePathKeywords).getD [])
    if excludePathKeywords = [] then true
    else
      match parseUrl link.href with
      | none => false
      | some u =>
        let pathname := strToLower u.path
        ¬ excludePathKeywords.any fun kw => strContainsStr pathname (strToLower kw)

/-- Embedding of the extractLinks pipeline (src/unnamed/part_012) from the
collected anchor list onward: tracking resolution, text filtering, dedup
by href, domain and path filtering, scoring, and the minimum-score cut.
HTML anchor collection (cheerio) is left to the caller, which supplies
the collected links.  Returns each kept link with its score. -/
def extractLinks (links : List ExtLink) (rules : Option LinkRules)
    (oracle : RedirectOracle) : List (ExtLink × Int) :=
  let resolveTracking := (rules.bind LinkRules.resolveTrackingLinks) ≠ some false
  let resolved := if resolveTracking then links.map (resolveLinkStep oracle) else links
  let filtered := textFilterStep rules resolved
  let deduped := dedupByHref filtered
  let domainFiltered := domainFilterStep rules deduped
  let pathFiltered := pathFilterStep rules domainFiltered
  let minScore := (rules.bind LinkRules.minArticleScore).getD 2
  let scored := pathFiltered.map fun link => (link, scoreArticleLink link.href link.text rules)
  scored.filter fun s => minScore ≤ s.2

/- ===================== AI-assisted extraction ===================== -/

/-- JSON values, for the model of JSON.parse. -/
inductive JsonVal where
  | null
  | bool (b : Bool)
  | num (n : Int)
  | str (s : String)
  | arr (items : List JsonVal)
  | obj (fields : List (String × JsonVal))
deriving Repr

/-- Whitespace characters JSON.parse skips. -/
def isJsonWs (c : Char) : Bool :=
  c = ' ' ∨ c = '\t' ∨ c = '\n' ∨ c = '\r'

def skipJsonWs (cs : List Char) : List Char :=
  cs.dropWhile isJsonWs

/-- Parse a JSON string body after the opening quote, handling the escape
sequences JSON allows; unsupported inputs fail. -/
def jsonStringBody : Nat → List Char → Option (List Char × List Char)
  | 0, _ => none
  | _, [] => none
  | fuel + 1, c :: rest =>
    if c = '"' then some ([], rest)
    else if c = '\\' then
      match rest with
      | [] => none
      | e :: rest2 =>
        let esc : Option Char :=
          if e = '"' then some '"'
          else if e = '\\' then some '\\'
          else if e = '/' then some '/'
          else if e = 'b' then some (Char.ofNat 8)
          else if e = 'f' then some (Char.ofNat 12)
          else if e = 'n' then some '\n'
          else if e = 'r' then some '\r'
          else if e = 't' then some '\t'
          else none
        match esc with
        | none =>
          if e = 'u' then
            match rest2 with
            | h1 :: h2 :: h3 :: h4 :: rest3 =>
              match hexVal h1, hexVal h2, hexVal h3, hexVal h4 with
              | some a, some b, some c2, some d =>
                let cp := ((a * 16 + b) * 16 + c2) * 16 + d
                if 0xD800 ≤ cp ∧ cp ≤ 0xDFFF then none
                else (jsonStringBody fuel rest3).map fun r => (Char.ofNat cp :: r.1, r.2)
              | _, _, _, _ => none
            | _ => none
          else none
        | some ec => (jsonStringBody fuel rest2).map fun r => (ec :: r.1, r.2)
    else if c.toNat < 0x20 then none
    else (jsonStringBody fuel rest).map fun r => (c :: r.1, r.2)

/-- The parsing task of the JSON recursive-descent parser: a value, the
remaining items of an array, or the remaining fields of an object. -/
inductive JMode where
  | value
  | arrItems (acc : List JsonVal)
  | objFields (acc : List (String × JsonVal))

/-- Model of JSON.parse (fuelled recursive descent, returning the value
and the unconsumed input).  Numbers are accepted with optional sign,
fraction and exponent, but their value is modelled by the integer part
only; the extraction code never reads numeric values, so only acceptance
matters. -/
def jsonP : Nat → JMode → List Char → Option (JsonVal × List Char)
  | 0, _, _ => none
  | fuel + 1, JMode.value, cs0 =>
    let cs := skipJsonWs cs0
    match cs with
    | [] => none
    | c :: rest =>
      if c = '"' then
        (jsonStringBody fuel rest).map fun r => (JsonVal.str ⟨r.1⟩, r.2)
      else if c = '[' then
        match skipJsonWs rest with
        | ']' :: tail => some (JsonVal.arr [], tail)
        | _ => jsonP fuel (JMode.arrItems []) rest
      else if c = '{' then
        match skipJsonWs rest with
        | '}' :: tail => some (JsonVal.obj [], tail)
        | _ => jsonP fuel (JMode.objFields []) rest
      else if c = 't' then
        match cs with
        | 't' :: 'r' :: 'u' :: 'e' :: tail => some (JsonVal.bool true, tail)
        | _ => none
      else if c = 'f' then
        match cs with
        | 'f' :: 'a' :: 'l' :: 's' :: 'e' :: tail => some (JsonVal.bool false, tail)
        | _ => none
      else if c = 'n' then
        match cs with
        | 'n' :: 'u' :: 'l' :: 'l' :: tail => some (JsonVal.null, tail)
        | _ => none
      else if c = '-' ∨ c.isDigit then
        let (sign, cs2) : Int × List Char := if c = '-' then (-1, rest) else (1, cs)
        let digits := cs2.takeWhile Char.isDigit
        let afterInt := cs2.dropWhile Char.isDigit
        if digits = [] then none
        else
          let intVal := digits.foldl (fun acc d => acc * 10 + (d.toNat - 48)) 0
          let afterFrac :=
            match afterInt with
            | '.' :: fs =>
              if (fs.takeWhile Char.isDigit) = [] then none
              else some (fs.dropWhile Char.isDigit)
            | _ => some afterInt
          match afterFrac with
          | none => none
          | some rest3 =>
            let afterExp :=
              match rest3 with
              | e :: es =>
                if e = 'e' ∨ e = 'E' then
                  let es2 := match es with
                    | s :: ss => if s = '+' ∨ s = '-' then ss else es
                    | [] => es
                  if (es2.takeWhile Char.isDigit) = [] then none
                  else some (es2.dropWhile Char.isDigit)
                else some rest3
              | [] => some rest3
            match afterExp with
            | none => none
            | some rest4 => some (JsonVal.num (sign * (intVal : Int)), rest4)
      else none
  | fuel + 1, JMode.arrItems acc, cs =>
    match jsonP fuel JMode.value cs with
    | none => none
    | some (v, rest) =>
      match skipJsonWs rest with
      | ']' :: tail => some (JsonVal.arr (acc ++ [v]), tail)
      | ',' :: tail => jsonP fuel (JMode.arrItems (acc ++ [v])) tail
      | _ => none
  | fuel + 1, JMode.objFields acc, cs =>
    match skipJsonWs cs with
    | '"' :: rest =>
      match jsonStringBody fuel rest with
      | none => none
      | some (nameCs, rest2) =>
        match skipJsonWs rest2 with
        | ':' :: rest4 =>
          match jsonP fuel JMode.value rest4 with
          | none => none
          | some (v, rest5) =>
            match skipJsonWs rest5 with
            | '}' :: tail => some (JsonVal.obj (acc ++ [(⟨nameCs⟩, v)]), tail)
            | ',' :: tail => jsonP fuel (JMode.objFields (acc ++ [(⟨nameCs⟩, v)])) tail
            | _ => none
        | _ => none
    | _ => none

/-- Model of JSON.parse on a whole string: the parsed value, provided only
whitespace follows it; none models a thrown SyntaxError. -/
def jsonParse (s : String) : Option JsonVal :=
  match jsonP (2 * s.length + 4) JMode.value s.toList with
  | none => none
  | some (v, rest) => if skipJsonWs rest = [] then some v else none

/-- Last-wins field lookup on a JSON object, matching property access on
the object JSON.parse builds (later duplicate keys overwrite). -/
def jsonGetField (fields : List (String × JsonVal)) (name : String) : Option JsonVal :=
  ((fields.reverse).find? fun f => f.1 = name).map Prod.snd

/-- A candidate returned by the language model: a link and an optional
title (NewsletterLinkCandidate). -/
structure NLCandidate where
  link : String
  title : Option String
deriving Repr, DecidableEq

/-- Embedding of stripCodeFences: remove every occurrence of three
backquotes, optionally followed by the letters "json" in any case, then
trim. -/
def stripFencesChars : Nat → List Char → List Char
  | 0, l => l
  | _, [] => []
  | fuel + 1, l =>
    match l with
    | c1 :: c2 :: c3 :: rest =>
      if c1.toNat = 96 ∧ c2.toNat = 96 ∧ c3.toNat = 96 then
        match rest with
        | j :: s :: o :: n :: rest2 =>
          if j.toLower = 'j' ∧ s.toLower = 's' ∧ o.toLower = 'o' ∧ n.toLower = 'n' then
            stripFencesChars fuel rest2
          else stripFencesChars fuel rest
        | _ => stripFencesChars fuel rest
      else c1 :: stripFencesChars fuel (c2 :: c3 :: rest)
    | c :: rest => c :: stripFencesChars fuel rest
    | [] => []

/-- Embedding of stripCodeFences (src/unnamed/part_012). -/
def stripCodeFences (text : String) : String :=
  strTrim ⟨stripFencesChars (text.length + 1) text.toList⟩

/-- Index of the first occurrence of a character, if any. -/
def firstIdxOf (cs : List Char) (c : Char) : Option Nat :=
  cs.findIdx? fun x => x = c

/-- Index of the last occurrence of a character, if any. -/
def lastIdxOf (cs : List Char) (c : Char) : Option Nat :=
  match (cs.reverse).findIdx? fun x => x = c with
  | none => none
  | some i => some (cs.length - 1 - i)

/-- Embedding of extractJsonArray: the trimmed text itself when it is
bracketed, otherwise the greedy regex span from the first opening bracket
to the last closing bracket, otherwise the empty string. -/
def extractJsonArray (text : String) : String :=
  let trimmed := strTrim text
  if strStartsWith trimmed "[" ∧ strEndsWith trimmed "]" then trimmed
  else
    let cs := trimmed.toList
    match firstIdxOf cs '[' with
    | none => ""
    | some i =>
      match lastIdxOf cs ']' with
      | none => ""
      | some j => if i ≤ j then ⟨(cs.drop i).take (j + 1 - i)⟩ else ""

/-- Extract the usable candidates from a parsed JSON array, as the loop of
parseNewsletterLinks does: only object items contribute; the link comes
from a string "link" field, else a string "url" field; an item with no
usable link is skipped; link and title are trimmed. -/
def candidatesOfJson (v : JsonVal) : List NLCandidate :=
  match v with
  | JsonVal.arr items =>
    items.filterMap fun item =>
      match item with
      | JsonVal.obj fields =>
        let link :=
          match jsonGetField fields "link" with
          | some (JsonVal.str s) => s
          | _ =>
            match jsonGetField fields "url" with
            | some (JsonVal.str s) => s
            | _ => ""
        if link = "" then none
        else
          let title :=
            match jsonGetField fields "title" with
            | some (JsonVal.str s) => some (strTrim s)
            | _ => none
          some ⟨strTrim link, title⟩
      | _ => none
  | _ => []

/-- Embedding of parseNewsletterLinks (src/unnamed/part_012): strip code
fences, extract the first top-level bracketed span, JSON.parse it, and
keep the usable items; every failure yields the empty list. -/
def parseNewsletterLinks (text : String) : List NLCandidate :=
  let cleaned := stripCodeFences text
  let json := extractJsonArray cleaned
  if json = "" then []
  else
    match jsonParse json with
    | none => []
    | some v => candidatesOfJson v

/-- The model-call-and-retry logic of extractNewsletterLinksWithAi
(src/unnamed/part_012): the two oracle strings are the raw texts the
language model would return for the first call and for the
stricter-instruction retry.  Returns the raw candidates together with the
number of model calls issued. -/
def aiRawCandidates (firstText retryText : String) : List NLCandidate × Nat :=
  let raw := parseNewsletterLinks firstText
  if raw = [] ∧ strTrim firstText ≠ "" then (parseNewsletterLinks retryText, 2)
  else (raw, 1)

/-- Strip the trailing punctuation run the normalizeUrl regex removes:
closing parentheses, commas, periods and closing square brackets. -/
def stripTrailingPunct (s : String) : String :=
  ⟨(s.toList.reverse.dropWhile fun c => c = ')' ∨ c = ',' ∨ c = '.' ∨ c = ']').reverse⟩

/-- Case-insensitive test for an absolute http(s) prefix, the regex
checking for the characters h t t p, an optional s, a colon and two
slashes at the start of the string. -/
def hasHttpSchemePrefix (s : String) : Bool :=
  strStartsWith (strToLower s) "http://" || strStartsWith (strToLower s) "https://"

/-- Embedding of normalizeUrl (src/unnamed/part_012): trim, strip trailing
punctuation, require an http(s) scheme, and round-trip through the URL
parser; the empty string signals rejection. -/
def normalizeUrl (input : String) : String :=
  let trimmed := stripTrailingPunct (strTrim input)
  if ¬ hasHttpSchemePrefix trimmed then ""
  else
    match parseUrl trimmed with
    | none => ""
    | some u => serializeUrl u

/-- Embedding of getUrlKey (src/unnamed/part_012): the URL serialised with
its fragment cleared, or the input itself when it does not parse. -/
def getUrlKey (input : String) : String :=
  match parseUrl input with
  | none => input
  | some u => serializeUrl { u with fragment := none }

/-- Collapse runs of whitespace characters into single spaces. -/
def collapseWs : Nat → List Char → List Char
  | _, [] => []
  | 0, l => l
  | fuel + 1, c :: rest =>
    if c.isWhitespace then ' ' :: collapseWs fuel (rest.dropWhile Char.isWhitespace)
    else c :: collapseWs fuel rest

/-- Model of normalizeText: collapse whitespace runs to single spaces and
trim. -/
def normalizeTextModel (text : String) : String :=
  strTrim ⟨collapseWs text.length text.toList⟩

/-- The per-candidate normalisation step of extractNewsletterLinksWithAi:
normalise the link, statically unwrap it, optionally resolve a tracking
host through the redirect prober, and normalise the title whitespace.
Except.error models the uncaught URIError a malformed tracking parameter
raises inside unwrapTrackingUrl. -/
def aiNormalizeCandidate (resolveTracking : Bool) (oracle : RedirectOracle)
    (c : NLCandidate) : Except Unit (Option NLCandidate) :=
  let normalizedLink := normalizeUrl c.link
  if normalizedLink = "" then Except.ok none
  else
    match unwrapTrackingUrl normalizedLink with
    | Except.error e => Except.error e
    | Except.ok (href, unwrapped) =>
      let resolved :=
        if resolveTracking ∧ ¬ unwrapped ∧ isTrackingHostname (hostnameOrEmpty href) then
          (resolveTrackingRedirect href oracle []).1
        else href
      Except.ok (some ⟨resolved, c.title.map normalizeTextModel⟩)

/-- First-seen deduplication by getUrlKey with an accumulator of seen
keys, modelling the insertion-order Map of extractNewsletterLinksWithAi. -/
def dedupByUrlKey : List NLCandidate → List String → List NLCandidate
  | [], _ => []
  | c :: rest, seen =>
    if seen.contains (getUrlKey c.link) then dedupByUrlKey rest seen
    else c :: dedupByUrlKey rest (getUrlKey c.link :: seen)

/-- The maximum number of links kept per newsletter (MAX_NEWSLETTER_LINKS). -/
def MAX_NEWSLETTER_LINKS : Nat := 10

/-- Sequence a fallible step over a list, modelling Promise.all over the
per-candidate normalisations: the first raised error rejects the whole
batch. -/
def mapExcept (f : NLCandidate → Except Unit (Option NLCandidate)) :
    List NLCandidate → Except Unit (List (Option NLCandidate))
  | [] => Except.ok []
  | x :: xs =>
    match f x with
    | Except.error e => Except.error e
    | Except.ok y =>
      match mapExcept f xs with
      | Except.error e => Except.error e
      | Except.ok ys => Except.ok (y :: ys)

/-- The normalisation and filtering stage of extractNewsletterLinksWithAi:
per-candidate normalisation (which can raise via unwrapTrackingUrl)
followed by the URL-parseability filter. -/
def aiNormalizedFiltered (resolveTracking : Bool) (oracle : RedirectOracle)
    (raw : List NLCandidate) : Except Unit (List NLCandidate) :=
  match mapExcept (aiNormalizeCandidate resolveTracking oracle) raw with
  | Except.error e => Except.error e
  | Except.ok normalized =>
    Except.ok ((normalized.filterMap id).filter fun c =>
      c.link ≠ "" ∧ (parseUrl c.link).isSome)

/-- The final stage of extractNewsletterLinksWithAi: normalisation and
filtering, then first-seen dedup by getUrlKey and the slice to the
maximum item count. -/
def aiFinalizeCandidates (resolveTracking : Bool) (oracle : RedirectOracle)
    (raw : List NLCandidate) : Except Unit (List NLCandidate) :=
  match aiNormalizedFiltered resolveTracking oracle raw with
  | Except.error e => Except.error e
  | Except.ok filtered =>
    Except.ok ((dedupByUrlKey filtered []).take MAX_NEWSLETTER_LINKS)

/- ===================== Stories, sources, windows ===================== -/

/-- A candidate story surfaced for summarization. -/
structure Story where
  id : String
  title : String
  url : String
  hackerNewsUrl : String
  sourceName : String
  sourceUrl : String
  publishedAt : Option String := none
  sourceItemId : Option String := none
  sourceItemTitle : Option String := none
deriving Repr, DecidableEq

/-- The source kinds of SourceConfig.type. -/
inductive SourceType where
  | rss
  | url
  | gmail
deriving Repr, DecidableEq

/-- Static source configuration (src/unnamed/part_009's SourceConfig). -/
structure SourceConfig where
  id : String
  name : String
  type : SourceType
  url : String
  enabled : Option Bool := none
  lookbackDays : Option Nat := none
  label : Option String := none
  maxMessages : Option Nat := none
  linkRules : Option LinkRules := none
deriving Repr, DecidableEq

/-- Embedding of isWithinWindow (src/unnamed/part_011): inclusive at both
ends.  Timestamps are Int milliseconds (Date.getTime()). -/
def isWithinWindow (publishedAt start «end» : Int) : Bool :=
  decide (start ≤ publishedAt) && decide (publishedAt ≤ «end»)

/-- Embedding of isWithinLookback (src/unnamed/part_011). -/
def isWithinLookback (publishedAt now : Int) (lookbackDays : Nat) : Bool :=
  decide (now - (lookbackDays : Int) * 86400000 ≤ publishedAt) && decide (publishedAt ≤ now)

/-- The window test of fetchGmailItems (src/unnamed/part_012): a message
is kept unless its received time is strictly before the window start or
strictly after the window end. -/
def gmailWindowKeep (receivedAt start «end» : Int) : Bool :=
  !(decide (receivedAt < start) || decide («end» < receivedAt))

/- ===================== RSS item filter ===================== -/

/-- A feed entry as produced by the RSS/Atom extraction. -/
structure RssItem where
  title : String
  link : String
  guid : String
  pubDate : String
deriving Repr, DecidableEq

/-- Embedding of normalizeItem: fall back from link to guid and drop items
with neither. -/
def normalizeItem (item : RssItem) : Option RssItem :=
  let url := if item.link ≠ "" then item.link else item.guid
  if url = "" then none else some { item with link := url }

/-- The filtering and mapping stage of fetchRssItems (src/unnamed/part_011).
The feed-date parser (JavaScript new Date on the pubDate text, host
defined) and the Chicago calendar-date key (Intl.DateTimeFormat) are
oracle parameters; parseDate returns the epoch milliseconds or none for
an unparseable date. -/
def processRssItems (parseDate : String → Option Int) (dateKey : Int → String)
    (source : SourceConfig) (items : List RssItem) (now : Int) (lookbackDays : Nat)
    (window : Option (Int × Int)) : List Story :=
  ((items.filterMap normalizeItem).filter fun item =>
    match parseDate item.pubDate with
    | none => false
    | some publishedAt =>
      match window with
      | some (s, e) => isWithinWindow publishedAt s e
      | none => dateKey publishedAt = dateKey now && isWithinLookback publishedAt now lookbackDays
  ).map fun item =>
    { id := if item.guid ≠ "" then item.guid else item.link
      title := item.title
      url := item.link
      hackerNewsUrl := item.link
      sourceName := source.name
      sourceUrl := source.url
      publishedAt := some item.pubDate }

/-- Embedding of fetchRssItems (src/unnamed/part_011): the feed fetch and
XML parse are an oracle producing either the extracted items or a thrown
error; the surrounding try/catch turns every failure into an empty result,
so the function is total. -/
def fetchRssItems (parseDate : String → Option Int) (dateKey : Int → String)
    (source : SourceConfig) (fetchResult : Except Unit (List RssItem))
    (now : Int) (lookbackDays : Nat) (window : Option (Int × Int)) : List Story :=
  match fetchResult with
  | Except.error _ => []
  | Except.ok items => processRssItems parseDate dateKey source items now lookbackDays window

/- ===================== Gmail branch ===================== -/

/-- The Gmail environment fields the code reads.  none models an absent
variable; the TypeScript truthiness tests also treat the empty string as
absent. -/
structure GmailEnv where
  clientId : Option String := none
  clientSecret : Option String := none
  refreshToken : Option String := none
  userEmail : Option String := none
  nodeEnv : Option String := none
deriving Repr, DecidableEq

/-- A truthy optional string (present and non-empty). -/
def presentStr (o : Option String) : Bool :=
  match o with
  | some s => s ≠ ""
  | none => false

/-- Embedding of fetchAccessToken's credential guard: missing or empty
Gmail credentials throw before any network call; otherwise the token
exchange itself (the oracle) may succeed or throw. -/
def fetchAccessToken (env : GmailEnv) (tokenExchange : Except Unit String) :
    Except Unit String :=
  if ¬ (presentStr env.clientId ∧ presentStr env.clientSecret ∧ presentStr env.refreshToken) then
    Except.error ()
  else tokenExchange

/-- The received time of a Gmail message (src/unnamed/part_012): the
message's internalDate in epoch milliseconds, or the trigger instant when
the header is absent. -/
def gmailReceivedAt (internalDate : Option Int) (now : Int) : Int :=
  match internalDate with
  | some t => t
  | none => now

/-- The per-message tail of fetchGmailItems (src/unnamed/part_012) when an
explicit window is supplied: compute the received time, apply the window
test, run the extraction (whose failure the surrounding catch turns into
a skip), and emit one Story per extracted link.  The toISOString
rendering of a timestamp is the iso oracle parameter. -/
def gmailMessageStories (iso : Int → String) (source : SourceConfig)
    (messageId subject : String) (internalDate : Option Int)
    (now start «end» : Int) (extracted : Except Unit (List NLCandidate)) : List Story :=
  let receivedAt := gmailReceivedAt internalDate now
  if ¬ gmailWindowKeep receivedAt start «end» then []
  else
    match extracted with
    | Except.error _ => []
    | Except.ok links =>
      (links.enum.map fun li =>
        { id := messageId ++ ":" ++ toString li.1
          title := match li.2.title with
            | some t => if t = "" then subject else t
            | none => subject
          url := li.2.link
          hackerNewsUrl := li.2.link
          sourceName := source.name
          sourceUrl := source.url
          publishedAt := some (iso receivedAt)
          sourceItemId := some messageId
          sourceItemTitle := some subject } : List Story)

/- ===================== Source dispatcher ===================== -/

/-- Embedding of the dispatcher's gmail arm body: the label guard returns
an empty result, the credential guard and token exchange may throw, and
the remainder of fetchGmailItems (listing, fetching and processing the
messages with the obtained token) is the rest oracle, which may itself
throw. -/
def gmailBranch (env : GmailEnv) (tokenExchange : Except Unit String)
    (rest : String → Except Unit (List Story)) (source : SourceConfig) :
    Except Unit (List Story) :=
  if ¬ presentStr source.label then Except.ok []
  else
    match fetchAccessToken env tokenExchange with
    | Except.error e => Except.error e
    | Except.ok token => rest token

/-- Model of Promise.all over the per-source branch results followed by
the final flat(): if every branch fulfils, the concatenation of their
results in source-declaration order; if any branch rejects, the whole
call rejects (the model reports the first rejection in declaration
order; the TypeScript value is whichever rejection settles first, which
the claims do not distinguish). -/
def collectBranches : List (Except Unit (List Story)) → Except Unit (List Story)
  | [] => Except.ok []
  | Except.error e :: _ => Except.error e
  | Except.ok stories :: rest =>
    match collectBranches rest with
    | Except.error e => Except.error e
    | Except.ok more => Except.ok (stories ++ more)

/-- Embedding of isEnabled: enabled !== false. -/
def isEnabled (source : SourceConfig) : Bool :=
  source.enabled ≠ some false

/-- Embedding of getLookbackDays: the per-source override or the global
default. -/
def getLookbackDays (source : SourceConfig) (defaultLookbackDays : Nat) : Nat :=
  match source.lookbackDays with
  | some d => d
  | none => defaultLookbackDays

/-- The branch the dispatcher runs for one enabled source
(src/workflow/sources/index.ts).  rssFetch is the per-source feed
fetch-and-parse oracle; gmailRest is the per-source remainder of
fetchGmailItems after a successful token exchange. -/
def sourceBranch (parseDate : String → Option Int) (dateKey : Int → String)
    (rssFetch : SourceConfig → Except Unit (List RssItem))
    (env : Option GmailEnv) (tokenExchange : Except Unit String)
    (gmailRest : SourceConfig → Nat → String → Except Unit (List Story))
    (now : Int) (defaultLookbackDays : Nat) (window : Option (Int × Int))
    (source : SourceConfig) : Except Unit (List Story) :=
  let days := getLookbackDays source defaultLookbackDays
  match source.type with
  | SourceType.rss =>
    Except.ok (fetchRssItems parseDate dateKey source (rssFetch source) now days window)
  | SourceType.gmail =>
    match env with
    | none => Except.ok []
    | some e => gmailBranch e tokenExchange (gmailRest source days) source
  | SourceType.url =>
    Except.ok [{ id := source.id
                 title := source.name
                 url := source.url
                 hackerNewsUrl := source.url
                 sourceName := source.name
                 sourceUrl := source.url }]

/-- Embedding of getStoriesFromSources (src/workflow/sources/index.ts):
filter the configured sources to the enabled ones, run every branch, and
flatten.  The source list and global lookback stand for the loaded
configuration. -/
def getStoriesFromSources (parseDate : String → Option Int) (dateKey : Int → String)
    (rssFetch : SourceConfig → Except Unit (List RssItem))
    (env : Option GmailEnv) (tokenExchange : Except Unit String)
    (gmailRest : SourceConfig → Nat → String → Except Unit (List Story))
    (sources : List SourceConfig) (defaultLookbackDays : Nat)
    (now : Int) (window : Option (Int × Int)) : Except Unit (List Story) :=
  collectBranches ((sources.filter isEnabled).map
    (sourceBranch parseDate dateKey rssFetch env tokenExchange gmailRest now
      defaultLookbackDays window))

/- ===================== Auxiliary definitions for the theorems ===================== -/

/-- The Story the dispatcher's url arm emits for a configured source. -/
def urlStory (source : SourceConfig) : Story :=
  { id := source.id
    title := source.name
    url := source.url
    hackerNewsUrl := source.url
    sourceName := source.name
    sourceUrl := source.url }

/-- An absolute http(s)-shaped URL string: an http or https scheme prefix
(case-insensitive) and acceptance by the URL parser. -/
def isAbsHttpUrl (s : String) : Bool :=
  hasHttpSchemePrefix s && (parseUrl s).isSome

/-- Modelled from the spec (section 4.2): the first URL-decodable absolute
http(s) value among the ordered unwrap candidate parameters, skipping
values that are absent, empty, undecodable or not http(s)-prefixed.  This
is the specification-side description of the unwrap search, used to
compare the code's scan against the spec's first-match wording. -/
def specFirstDecodedTarget (u : Url) (keys : List String) : Option String :=
  (keys.filterMap fun k =>
    (searchParamsGet u k).bind fun v =>
      (decodeURIComponent v).bind fun d =>
        if strStartsWith d "http://" || strStartsWith d "https://" then some d else none).head?

/-- The decoded-target extraction for one candidate key, used to relate
the unwrap scan to its specification: the parameter value, decoded, when
it is http(s)-prefixed. -/
def unwrapTargetOf (u : Url) (k : String) : Option String :=
  (searchParamsGet u k).bind fun v =>
    (decodeURIComponent v).bind fun d =>
      if strStartsWith d "http://" || strStartsWith d "https://" then some d else none

/- ===================== Theorems ===================== -/

lemma isWithinWindow_iff (t s e : Int) : isWithinWindow t s e = true ↔ (s ≤ t ∧ t ≤ e) := by
  simp only [isWithinWindow, Bool.and_eq_true, decide_eq_true_eq]

lemma gmailWindowKeep_iff (t s e : Int) : gmailWindowKeep t s e = true ↔ (¬ (t < s ∨ e < t)) := by
  simp only [gmailWindowKeep, Bool.not_eq_true', Bool.or_eq_true, decide_eq_true_eq,
    Bool.not_eq_true, Bool.or_eq_false_iff, decide_eq_false_iff_not]
  tauto

/-- C3: resolved window bounds are inclusive at both ends: a timestamp
equal to start or to end is retained by the window filter (both by the
RSS isWithinWindow test and by the Gmail branch's keep condition, which
agree everywhere), while a timestamp one millisecond before start or one
millisecond after end is excluded. -/
theorem window_bounds_inclusive (start «end» : Int) (h : start ≤ «end») :
    isWithinWindow start start «end» = true ∧
    isWithinWindow «end» start «end» = true ∧
    isWithinWindow (start - 1) start «end» = false ∧
    isWithinWindow («end» + 1) start «end» = false ∧
    ∀ t : Int, gmailWindowKeep t start «end» = isWithinWindow t start «end» := by
  refine ⟨?_, ?_, ?_, ?_, ?_⟩
  · rw [isWithinWindow_iff]; omega
  · rw [isWithinWindow_iff]; omega
  · rw [Bool.eq_false_iff, Ne, isWithinWindow_iff]; omega
  · rw [Bool.eq_false_iff, Ne, isWithinWindow_iff]; omega
  · intro t
    rw [Bool.eq_iff_iff, gmailWindowKeep_iff, isWithinWindow_iff]
    omega

/-- Witness for C3 at the concrete window 0..10. -/
theorem window_bounds_inclusive_witness :
    (0 : Int) ≤ 10 ∧ isWithinWindow 0 0 10 = true ∧ isWithinWindow 11 0 10 = false :=
  ⟨by decide, (window_bounds_inclusive 0 10 (by decide)).1,
    ((window_bounds_inclusive 0 10 (by decide)).2.2.2.1)⟩

/-- C6: the article-likelihood score of a parseable link is the sum of
four independent 0/1 heuristics (path depth at least two segments; a
final segment of at least ten characters containing a hyphen or
underscore; a configured includePathKeywords substring match; display
text at least minTextLength, default 8), hence deterministic with range
0..4; the example link with path /a/b/some-long-slug-here and ten
characters of text scores exactly 3 and is kept by the pipeline at the
default threshold 2, while a bare slash with two characters of text
scores 0 and is dropped. -/
theorem score_components_and_boundary :
    (∀ (href text : String) (rules : Option LinkRules) (u : Url), parseUrl href = some u →
      scoreArticleLink href text rules =
        (if 2 ≤ getUrlPathDepth (normalizeUrlPath u.path) then (1 : Int) else 0) +
        (if 10 ≤ (getLastPathSegment (normalizeUrlPath u.path)).length ∧
            (getLastPathSegment (normalizeUrlPath u.path)).toList.any
              (fun c => c = '-' ∨ c = '_') = true then 1 else 0) +
        (if (rules.bind LinkRules.includePathKeywords).getD [] ≠ [] ∧
            ((rules.bind LinkRules.includePathKeywords).getD []).any
              (fun kw => strContainsStr (normalizeUrlPath u.path) (strToLower kw)) = true
          then 1 else 0) +
        (if ((rules.bind LinkRules.minTextLength).getD 8) ≤ (text.length : Int) then 1 else 0) ∧
      0 ≤ scoreArticleLink href text rules ∧ scoreArticleLink href text rules ≤ 4) ∧
    scoreArticleLink "https://x.com/a/b/some-long-slug-here" "abcdefghij" none = 3 ∧
    extractLinks [⟨"https://x.com/a/b/some-long-slug-here", "abcdefghij", false⟩] none
        (fun _ => none) =
      [(⟨"https://x.com/a/b/some-long-slug-here", "abcdefghij", false⟩, 3)] ∧
    scoreArticleLink "https://x.com/" "ab" none = 0 ∧
    extractLinks [⟨"https://x.com/", "ab", false⟩] none (fun _ => none) = [] := by
  refine ⟨?_, by decide, by decide, by decide, by decide⟩
  intro href text rules u hp
  have heq : scoreArticleLink href text rules =
      (if 2 ≤ getUrlPathDepth (normalizeUrlPath u.path) then (1 : Int) else 0) +
      (if 10 ≤ (getLastPathSegment (normalizeUrlPath u.path)).length ∧
          (getLastPathSegment (normalizeUrlPath u.path)).toList.any
            (fun c => c = '-' ∨ c = '_') = true then 1 else 0) +
      (if (rules.bind LinkRules.includePathKeywords).getD [] ≠ [] ∧
          ((rules.bind LinkRules.includePathKeywords).getD []).any
            (fun kw => strContainsStr (normalizeUrlPath u.path) (strToLower kw)) = true
        then 1 else 0) +
      (if ((rules.bind LinkRules.minTextLength).getD 8) ≤ (text.length : Int) then 1 else 0) := by
    unfold scoreArticleLink
    rw [hp]
    cases hk : rules.bind LinkRules.includePathKeywords with
    | none => simp [hk]
    | some ks => cases ks with
      | nil => simp
      | cons a l => simp
  refine ⟨heq, ?_, ?_⟩ <;> rw [heq] <;> split_ifs <;> omega

/-- Witness for C6: the parseability hypothesis discharged at the
boundary example, whose score evaluates to 3. -/
theorem score_components_and_boundary_witness :
    scoreArticleLink "https://x.com/a/b/some-long-slug-here" "abcdefghij" none =
      (1 : Int) + 1 + 0 + 1 := by
  have h := (score_components_and_boundary.1 "https://x.com/a/b/some-long-slug-here"
    "abcdefghij" none
    ⟨"https", true, "x.com", none, "/a/b/some-long-slug-here", none, none⟩ (by decide)).1
  rw [h]
  decide

lemma pathFilterStep_parseable (rules : Option LinkRules) (links : List ExtLink) :
    ∀ link ∈ pathFilterStep rules links, (parseUrl link.href).isSome = true := by
  intro link h
  simp only [pathFilterStep, List.mem_filter] at h
  obtain ⟨-, hp⟩ := h
  revert hp
  cases hpu : parseUrl link.href with
  | none => simp [hpu, defaultExcludePathKeywords]
  | some u => simp [hpu]

/-- C7: an href that fails to parse as a URL scores -1, and no link with
an unparseable href ever appears in the heuristic extraction result,
whatever the configured rules (in particular whatever minArticleScore,
including -1 or lower): the path-keyword filter stage, whose keyword list
always contains the defaults, rejects every unparseable href before
scoring. -/
theorem unparseable_href_never_kept :
    (∀ (href text : String) (rules : Option LinkRules), parseUrl href = none →
      scoreArticleLink href text rules = -1) ∧
    (∀ (links : List ExtLink) (rules : Option LinkRules) (oracle : RedirectOracle),
      (extractLinks links rules oracle).all (fun s => (parseUrl s.1.href).isSome) = true) := by
  constructor
  · intro href text rules hp
    unfold scoreArticleLink
    rw [hp]
  · intro links rules oracle
    rw [List.all_eq_true]
    intro x hx
    simp only [extractLinks, List.mem_filter, List.mem_map] at hx
    obtain ⟨⟨link, hmem, rfl⟩, -⟩ := hx
    exact pathFilterStep_parseable _ _ link hmem

/-- Witness for C7: the -1 score at a concrete unparseable href, with a
rules record carrying the threshold -1. -/
theorem unparseable_href_never_kept_witness :
    scoreArticleLink "::not a url::" "long enough text" (some { minArticleScore := some (-1) }) =
      -1 :=
  unparseable_href_never_kept.1 "::not a url::" "long enough text"
    (some { minArticleScore := some (-1) }) (by decide)

lemma specFirst_nil (u : Url) : specFirstDecodedTarget u [] = none := rfl

lemma specFirst_cons (u : Url) (k : String) (rest : List String) :
    specFirstDecodedTarget u (k :: rest) =
      match unwrapTargetOf u k with
      | some d => some d
      | none => specFirstDecodedTarget u rest := by
  simp only [specFirstDecodedTarget, unwrapTargetOf, List.filterMap_cons]
  cases h : (searchParamsGet u k).bind fun v =>
      (decodeURIComponent v).bind fun d =>
        if strStartsWith d "http://" || strStartsWith d "https://" then some d else none with
  | none => simp
  | some d => simp

lemma unwrapScanKeys_ok_false (u : Url) (href : String) :
    ∀ (keys : List String) (h₂ : String),
      unwrapScanKeys u href keys = Except.ok (h₂, false) → h₂ = href := by
  intro keys
  induction keys with
  | nil =>
    intro h₂ h
    simp only [unwrapScanKeys, Except.ok.injEq, Prod.mk.injEq] at h
    exact h.1.symm
  | cons k rest ih =>
    intro h₂ h
    unfold unwrapScanKeys at h
    cases hv : searchParamsGet u k with
    | none => simp only [hv] at h; exact ih h₂ h
    | some v =>
      simp only [hv] at h
      by_cases he : v = ""
      · rw [if_pos he] at h; exact ih h₂ h
      · rw [if_neg he] at h
        cases hd : decodeURIComponent v with
        | none => simp only [hd] at h; exact Except.noConfusion h
        | some dec =>
          simp only [hd] at h
          by_cases hs : (strStartsWith dec "http://" || strStartsWith dec "https://") = true
          · rw [if_pos hs] at h
            simp only [Except.ok.injEq, Prod.mk.injEq] at h
            exact absurd h.2 (by decide)
          · rw [if_neg hs] at h; exact ih h₂ h

lemma unwrapScanKeys_ok_true (u : Url) (href : String) :
    ∀ (keys : List String) (d : String),
      unwrapScanKeys u href keys = Except.ok (d, true) →
      (strStartsWith d "http://" || strStartsWith d "https://") = true ∧
      specFirstDecodedTarget u keys = some d := by
  intro keys
  induction keys with
  | nil =>
    intro d h
    simp only [unwrapScanKeys, Except.ok.injEq, Prod.mk.injEq] at h
    exact absurd h.2 (by decide)
  | cons k rest ih =>
    intro d h
    unfold unwrapScanKeys at h
    rw [specFirst_cons]
    cases hv : searchParamsGet u k with
    | none =>
      simp only [hv] at h
      obtain ⟨h1, h2⟩ := ih d h
      simp only [unwrapTargetOf, hv, Option.bind]
      exact ⟨h1, h2⟩
    | some v =>
      simp only [hv] at h
      by_cases he : v = ""
      · rw [if_pos he] at h
        obtain ⟨h1, h2⟩ := ih d h
        have hk : unwrapTargetOf u k = none := by
          simp [unwrapTargetOf, hv, he]
          decide
        rw [hk]
        exact ⟨h1, h2⟩
      · rw [if_neg he] at h
        cases hd : decodeURIComponent v with
        | none => simp only [hd] at h; exact Except.noConfusion h
        | some dec =>
          simp only [hd] at h
          by_cases hs : (strStartsWith dec "http://" || strStartsWith dec "https://") = true
          · rw [if_pos hs] at h
            simp only [Except.ok.injEq, Prod.mk.injEq] at h
            obtain ⟨hde, -⟩ := h
            subst hde
            have hk : unwrapTargetOf u k = some dec := by
              simp only [unwrapTargetOf, hv, Option.some_bind, hd, hs, if_true]
            rw [hk]
            exact ⟨hs, rfl⟩
          · rw [if_neg hs] at h
            obtain ⟨h1, h2⟩ := ih d h
            have hk : unwrapTargetOf u k = none := by
              simp [unwrapTargetOf, hv, hd]
              simpa using hs
            rw [hk]
            exact ⟨h1, h2⟩

lemma unwrapScanKeys_error (u : Url) (href : String) :
    ∀ keys : List String, unwrapScanKeys u href keys = Except.error () →
      ∃ k ∈ keys, ∃ v, searchParamsGet u k = some v ∧ v ≠ "" ∧ decodeURIComponent v = none := by
  intro keys
  induction keys with
  | nil => intro h; exact Except.noConfusion h
  | cons k rest ih =>
    intro h
    unfold unwrapScanKeys at h
    cases hv : searchParamsGet u k with
    | none =>
      simp only [hv] at h
      obtain ⟨k2, hk2, hrest⟩ := ih h
      exact ⟨k2, List.mem_cons_of_mem _ hk2, hrest⟩
    | some v =>
      simp only [hv] at h
      by_cases he : v = ""
      · rw [if_pos he] at h
        obtain ⟨k2, hk2, hrest⟩ := ih h
        exact ⟨k2, List.mem_cons_of_mem _ hk2, hrest⟩
      · rw [if_neg he] at h
        cases hd : decodeURIComponent v with
        | none => exact ⟨k, List.mem_cons_self _ _, v, hv, he, hd⟩
        | some dec =>
          simp only [hd] at h
          by_cases hs : (strStartsWith dec "http://" || strStartsWith dec "https://") = true
          · rw [if_pos hs] at h; exact Except.noConfusion h
          · rw [if_neg hs] at h
            obtain ⟨k2, hk2, hrest⟩ := ih h
            exact ⟨k2, List.mem_cons_of_mem _ hk2, hrest⟩

lemma unwrapScanKeys_complete (u : Url) (href : String) :
    ∀ (keys : List String) (d : String),
      (∀ k ∈ keys, ∀ v, searchParamsGet u k = some v → v ≠ "" →
        (decodeURIComponent v).isSome = true) →
      specFirstDecodedTarget u keys = some d →
      unwrapScanKeys u href keys = Except.ok (d, true) := by
  intro keys
  induction keys with
  | nil => intro d _ hspec; exact Option.noConfusion hspec
  | cons k rest ih =>
    intro d hdec hspec
    rw [specFirst_cons] at hspec
    unfold unwrapScanKeys
    cases hv : searchParamsGet u k with
    | none =>
      simp only [unwrapTargetOf, hv, Option.none_bind] at hspec
      exact ih d (fun k2 hk2 => hdec k2 (List.mem_cons_of_mem _ hk2)) hspec
    | some v =>
      simp only [hv]
      by_cases he : v = ""
      · rw [if_pos he]
        have : unwrapTargetOf u k = none := by
          subst he
          simp only [unwrapTargetOf, hv, Option.some_bind]
          decide
        rw [this] at hspec
        exact ih d (fun k2 hk2 => hdec k2 (List.mem_cons_of_mem _ hk2)) hspec
      · rw [if_neg he]
        have hds : (decodeURIComponent v).isSome = true :=
          hdec k (List.mem_cons_self _ _) v hv he
        cases hd : decodeURIComponent v with
        | none => rw [hd] at hds; exact Bool.noConfusion hds
        | some dec =>
          simp only [hd]
          simp only [unwrapTargetOf, hv, Option.some_bind, hd] at hspec
          by_cases hs : (strStartsWith dec "http://" || strStartsWith dec "https://") = true
          · rw [if_pos hs]
            rw [if_pos hs] at hspec
            simp only [Option.some.injEq] at hspec
            rw [hspec]
          · rw [if_neg hs]
            rw [if_neg hs] at hspec
            exact ih d (fun k2 hk2 => hdec k2 (List.mem_cons_of_mem _ hk2)) hspec

/-- C4 (amended): unwrapTrackingUrl is characterised as follows.  A URL
that is not a tracking candidate (unparseable, or neither a tracking
hostname nor a /track/ path) is returned unchanged with unwrapped false;
any unchanged-return really is the input; a successful unwrap returns an
http(s)-prefixed decoded target which is exactly the first URL-decodable
absolute http(s) value among the ordered candidate parameters (the
spec-side first-match function), and conversely such a first value is
returned whenever every probed parameter value is decodable; but - the
amendment - a tracking URL carrying a parameter value on which
decodeURIComponent throws makes the function throw instead of returning
the input unchanged.  The function is pure: no network call is modelled
or needed. -/
theorem unwrapTrackingUrl_characterisation :
    ∀ href : String,
      (isTrackingCandidate href = false → unwrapTrackingUrl href = Except.ok (href, false)) ∧
      (∀ h₂ : String, unwrapTrackingUrl href = Except.ok (h₂, false) → h₂ = href) ∧
      (∀ d : String, unwrapTrackingUrl href = Except.ok (d, true) →
        isTrackingCandidate href = true ∧
        (strStartsWith d "http://" || strStartsWith d "https://") = true ∧
        ∀ u, parseUrl href = some u → specFirstDecodedTarget u unwrapCandidateKeys = some d) ∧
      (unwrapTrackingUrl href = Except.error () →
        isTrackingCandidate href = true ∧
        ∀ u, parseUrl href = some u →
          ∃ k ∈ unwrapCandidateKeys, ∃ v, searchParamsGet u k = some v ∧ v ≠ "" ∧
            decodeURIComponent v = none) ∧
      (∀ (u : Url) (d : String), parseUrl href = some u → isTrackingUrlParsed u = true →
        (∀ k ∈ unwrapCandidateKeys, ∀ v, searchParamsGet u k = some v → v ≠ "" →
          (decodeURIComponent v).isSome = true) →
        specFirstDecodedTarget u unwrapCandidateKeys = some d →
        unwrapTrackingUrl href = Except.ok (d, true)) := by
  intro href
  cases hp : parseUrl href with
  | none =>
    have hres : unwrapTrackingUrl href = Except.ok (href, false) := by
      unfold unwrapTrackingUrl; rw [hp]
    refine ⟨fun _ => hres, ?_, ?_, ?_, ?_⟩
    · intro h₂ h
      rw [hres] at h
      simp only [Except.ok.injEq, Prod.mk.injEq] at h
      exact h.1.symm
    · intro d h
      rw [hres] at h
      simp only [Except.ok.injEq, Prod.mk.injEq] at h
      exact absurd h.2 (by decide)
    · intro h; rw [hres] at h; exact Except.noConfusion h
    · intro u d hu; exact Option.noConfusion hu
  | some u =>
    have htc : isTrackingCandidate href = isTrackingUrlParsed u := by
      unfold isTrackingCandidate; rw [hp]
    by_cases ht : isTrackingUrlParsed u = true
    · have hres : unwrapTrackingUrl href = unwrapScanKeys u href unwrapCandidateKeys := by
        unfold unwrapTrackingUrl
        simp only [hp]
        rw [if_neg (by simp [ht])]
      refine ⟨?_, ?_, ?_, ?_, ?_⟩
      · intro hfalse; rw [htc, ht] at hfalse; exact Bool.noConfusion hfalse
      · intro h₂ h; rw [hres] at h; exact unwrapScanKeys_ok_false u href _ h₂ h
      · intro d h
        rw [hres] at h
        obtain ⟨h1, h2⟩ := unwrapScanKeys_ok_true u href _ d h
        refine ⟨htc.trans ht, h1, fun u2 hu2 => ?_⟩
        injection hu2 with h3
        subst h3
        exact h2
      · intro h
        rw [hres] at h
        refine ⟨htc.trans ht, fun u2 hu2 => ?_⟩
        injection hu2 with h3
        subst h3
        exact unwrapScanKeys_error u href _ h
      · intro u2 d hu2 ht2 hdec hspec
        injection hu2 with h3
        subst h3
        rw [hres]
        exact unwrapScanKeys_complete u href _ d hdec hspec
    · have hres : unwrapTrackingUrl href = Except.ok (href, false) := by
        unfold unwrapTrackingUrl
        simp only [hp]
        rw [if_pos ht]
      refine ⟨fun _ => hres, ?_, ?_, ?_, ?_⟩
      · intro h₂ h
        rw [hres] at h
        simp only [Except.ok.injEq, Prod.mk.injEq] at h
        exact h.1.symm
      · intro d h
        rw [hres] at h
        simp only [Except.ok.injEq, Prod.mk.injEq] at h
        exact absurd h.2 (by decide)
      · intro h; rw [hres] at h; exact Except.noConfusion h
      · intro u2 d hu2 ht2 _ _
        injection hu2 with h3
        subst h3
        exact absurd ht2 ht

/-- Witness for C4 at a concrete wrapped URL: the unwrap hypothesis is
discharged by evaluation. -/
theorem unwrapTrackingUrl_characterisation_witness :
    isTrackingCandidate "https://links.example.com/a?u=https%3A%2F%2Ffoo.com%2Fbar" = true ∧
    (strStartsWith "https://foo.com/bar" "http://" ||
      strStartsWith "https://foo.com/bar" "https://") = true := by
  have h := (unwrapTrackingUrl_characterisation
      "https://links.example.com/a?u=https%3A%2F%2Ffoo.com%2Fbar").2.2.1
    "https://foo.com/bar" (by rfl)
  exact ⟨h.1, h.2.1⟩

/-- C4 counterexample: a tracking-host URL whose url parameter value is a
lone percent sign is neither unwrapped nor returned unchanged - the
uncaught URIError from decodeURIComponent aborts unwrapTrackingUrl, so
the claimed unchanged return with unwrapped false for all other URLs
fails at this input. -/
theorem unwrapTrackingUrl_undecodable_cex :
    unwrapTrackingUrl "https://links.example.com/a?url=%" = Except.error () ∧
    unwrapTrackingUrl "https://links.example.com/a?url=%" ≠
      Except.ok ("https://links.example.com/a?url=%", false) := by
  refine ⟨rfl, ?_⟩
  intro h
  rw [show unwrapTrackingUrl "https://links.example.com/a?url=%" = Except.error () from rfl] at h
  exact Except.noConfusion h

lemma assocGet_append_of_none (cache : List (String × String)) (k v : String)
    (h : assocGet cache k = none) : assocGet (cache ++ [(k, v)]) k = some v := by
  unfold assocGet at h ⊢
  rw [List.find?_append]
  cases hf : cache.find? fun p => p.1 = k with
  | none => simp [List.find?]
  | some p => rw [hf] at h; simp at h

lemma assocSet_of_none (cache : List (String × String)) (k v : String)
    (h : assocGet cache k = none) : assocSet cache k v = cache ++ [(k, v)] := by
  unfold assocSet
  unfold assocGet at h
  cases hf : cache.find? fun p => p.1 = k with
  | none => simp
  | some p => rw [hf] at h; simp at h

lemma assocGet_assocSet_of_none (cache : List (String × String)) (k v : String)
    (h : assocGet cache k = none) : assocGet (assocSet cache k v) k = some v := by
  rw [assocSet_of_none cache k v h]
  exact assocGet_append_of_none cache k v h

lemma strAppend_ne_empty_right (a b : String) (h : b ≠ "") : a ++ b ≠ "" := by
  intro hc
  apply h
  have hlen := congrArg String.length hc
  rw [String.length_append] at hlen
  have hb : b.length = 0 := by
    have h0 : String.length "" = 0 := rfl
    omega
  cases b with
  | mk data =>
    cases data with
    | nil => rfl
    | cons c cs =>
      simp only [String.length, List.length_cons] at hb
      omega

lemma strStartsWith_http_ne_empty (l : String) (h : strStartsWith l "http" = true) : l ≠ "" := by
  intro hc
  subst hc
  exact absurd h (by decide)

lemma resolveTrackingRedirect_fetched_empty (h : String) (oracle : RedirectOracle) :
    (resolveTrackingRedirect h oracle []).2.2 = (parseUrl h).isSome := by
  cases hp : parseUrl h with
  | none => simp [resolveTrackingRedirect, assocGet, hp]
  | some u =>
    cases ho : oracle h with
    | none => simp [resolveTrackingRedirect, assocGet, hp, ho]
    | some oo =>
      cases oo with
      | none => simp [resolveTrackingRedirect, assocGet, hp, ho]
      | some loc =>
        by_cases hl : loc = "" <;>
          simp [resolveTrackingRedirect, assocGet, hp, ho, hl]

/-- C5 (amended): resolveTrackingRedirect is a total soft-failure
function: when the href is not cached and the probe fails (network error
or timeout, response without a Location header, or an empty Location
value) the original href is returned unchanged; a cached href is
answered from the cache with no request; every call leaves the per-run
cache holding an entry keyed by the original href; and a later,
sequential call on the updated cache issues no HTTP request and returns
the same value.  But within one document the resolutions are fanned out
concurrently over the shared cache, whose writes land only after each
fetch settles while every callback consults it before any fetch
resolves: the fan-out issues exactly one request per link occurrence
that reaches the prober uncached with a parseable href, so repeated
identical tracking hrefs in the same fan-out each issue their own
request (see the counterexample). -/
theorem resolveTrackingRedirect_soft_failure :
    (∀ (href : String) (oracle : RedirectOracle) (cache : List (String × String)),
      (assocGet cache href = none →
        (oracle href = none ∨ oracle href = some none ∨ oracle href = some (some "")) →
        (resolveTrackingRedirect href oracle cache).1 = href) ∧
      (∀ v, assocGet cache href = some v →
        resolveTrackingRedirect href oracle cache =
          ((if v = "" then href else v), cache, false)) ∧
      (assocGet ((resolveTrackingRedirect href oracle cache).2.1) href).isSome = true ∧
      ((resolveTrackingRedirect href oracle
          ((resolveTrackingRedirect href oracle cache).2.1)).2.2 = false) ∧
      ((resolveTrackingRedirect href oracle
          ((resolveTrackingRedirect href oracle cache).2.1)).1
        = (resolveTrackingRedirect href oracle cache).1)) ∧
    (∀ (oracle : RedirectOracle) (links : List ExtLink),
      (resolveLinksFanOut oracle links).1 = links.map (resolveLinkStep oracle) ∧
      (resolveLinksFanOut oracle links).2 =
        (links.filter fun l =>
          !l.unwrapped && (isTrackingHostname (hostnameOrEmpty l.href) &&
            (parseUrl l.href).isSome)).length) := by
  refine ⟨fun href oracle cache => ?_, ?_⟩
  swap
  · intro oracle links
    induction links with
    | nil => exact ⟨rfl, rfl⟩
    | cons l rest ih =>
      obtain ⟨ih1, ih2⟩ := ih
      by_cases hu : l.unwrapped = true
      · constructor
        · simp only [resolveLinksFanOut, resolveLinkStep, hu, if_true, List.map_cons, ih1]
        · simp only [resolveLinksFanOut, hu, if_true, List.filter_cons, Bool.not_true,
            Bool.false_and, Bool.false_eq_true, if_false, ih2]
      · have hu2 : l.unwrapped = false := by
          cases hb : l.unwrapped
          · rfl
          · exact absurd hb hu
        by_cases htr : isTrackingHostname (hostnameOrEmpty l.href) = true
        · constructor
          · simp only [resolveLinksFanOut, resolveLinkStep, hu2, Bool.false_eq_true, if_false,
              htr, if_true, List.map_cons, ih1]
          · simp only [resolveLinksFanOut, hu2, Bool.false_eq_true, if_false, htr, if_true,
              List.filter_cons, Bool.not_false, Bool.true_and, ih2,
              resolveTrackingRedirect_fetched_empty]
            cases hps : (parseUrl l.href).isSome
            · simp [hps]
            · simp only [hps, if_true, List.length_cons]
              omega
        · have htr2 : isTrackingHostname (hostnameOrEmpty l.href) = false := by
            cases hb : isTrackingHostname (hostnameOrEmpty l.href)
            · rfl
            · exact absurd hb htr
          constructor
          · simp only [resolveLinksFanOut, resolveLinkStep, hu2, Bool.false_eq_true, if_false,
              htr2, List.map_cons, ih1]
          · simp only [resolveLinksFanOut, hu2, Bool.false_eq_true, if_false, htr2,
              List.filter_cons, Bool.not_false, Bool.true_and, Bool.false_and, ih2]
  cases hcv : assocGet cache href with
  | some v =>
    have hres : resolveTrackingRedirect href oracle cache =
        ((if v = "" then href else v), cache, false) := by
      unfold resolveTrackingRedirect
      simp only [hcv]
    refine ⟨fun hn _ => Option.noConfusion hn,
      fun v2 hv2 => by injection hv2 with h3; subst h3; exact hres,
      ?_, ?_, ?_⟩
    · rw [hres]; simp only [hcv, Option.isSome_some]
    · rw [hres]
      show (resolveTrackingRedirect href oracle cache).2.2 = false
      rw [hres]
    · rw [hres]
      show (resolveTrackingRedirect href oracle cache).1 = _
      rw [hres]
  | none =>
    cases hp : parseUrl href with
    | none =>
      have hres : resolveTrackingRedirect href oracle cache =
          (href, assocSet cache href href, false) := by
        unfold resolveTrackingRedirect
        simp only [hcv, hp]
      have hget : assocGet (assocSet cache href href) href = some href :=
        assocGet_assocSet_of_none cache href href hcv
      have hsecond : resolveTrackingRedirect href oracle (assocSet cache href href) =
          ((if href = "" then href else href), assocSet cache href href, false) := by
        unfold resolveTrackingRedirect
        simp only [hget]
      refine ⟨fun _ _ => by rw [hres], fun v2 hv2 => Option.noConfusion hv2,
        ?_, ?_, ?_⟩
      · rw [hres, hget]; rfl
      · rw [hres]
        show (resolveTrackingRedirect href oracle (assocSet cache href href)).2.2 = false
        rw [hsecond]
      · rw [hres]
        show (resolveTrackingRedirect href oracle (assocSet cache href href)).1 = href
        rw [hsecond]
        exact ite_self href
    | some u =>
      cases ho : oracle href with
      | none =>
        have hres : resolveTrackingRedirect href oracle cache =
            (href, assocSet cache href href, true) := by
          unfold resolveTrackingRedirect
          simp only [hcv, hp, ho]
        have hget : assocGet (assocSet cache href href) href = some href :=
          assocGet_assocSet_of_none cache href href hcv
        have hsecond : resolveTrackingRedirect href oracle (assocSet cache href href) =
            ((if href = "" then href else href), assocSet cache href href, false) := by
          unfold resolveTrackingRedirect
          simp only [hget]
        refine ⟨fun _ _ => by rw [hres], fun v2 hv2 => Option.noConfusion hv2,
          ?_, ?_, ?_⟩
        · rw [hres, hget]; rfl
        · rw [hres]
          show (resolveTrackingRedirect href oracle (assocSet cache href href)).2.2 = false
          rw [hsecond]
        · rw [hres]
          show (resolveTrackingRedirect href oracle (assocSet cache href href)).1 = href
          rw [hsecond]
          exact ite_self href
      | some oo =>
        cases oo with
        | none =>
          have hres : resolveTrackingRedirect href oracle cache =
              (href, assocSet cache href href, true) := by
            unfold resolveTrackingRedirect
            simp only [hcv, hp, ho]
          have hget : assocGet (assocSet cache href href) href = some href :=
            assocGet_assocSet_of_none cache href href hcv
          have hsecond : resolveTrackingRedirect href oracle (assocSet cache href href) =
              ((if href = "" then href else href), assocSet cache href href, false) := by
            unfold resolveTrackingRedirect
            simp only [hget]
          refine ⟨fun _ _ => by rw [hres], fun v2 hv2 => Option.noConfusion hv2,
            ?_, ?_, ?_⟩
          · rw [hres, hget]; rfl
          · rw [hres]
            show (resolveTrackingRedirect href oracle (assocSet cache href href)).2.2 = false
            rw [hsecond]
          · rw [hres]
            show (resolveTrackingRedirect href oracle (assocSet cache href href)).1 = href
            rw [hsecond]
            exact ite_self href
        | some loc =>
          by_cases hl : loc = ""
          · subst hl
            have hres : resolveTrackingRedirect href oracle cache =
                (href, assocSet cache href href, true) := by
              unfold resolveTrackingRedirect
              simp only [hcv, hp, ho, eq_self_iff_true, if_true]
            have hget : assocGet (assocSet cache href href) href = some href :=
              assocGet_assocSet_of_none cache href href hcv
            have hsecond : resolveTrackingRedirect href oracle (assocSet cache href href) =
                ((if href = "" then href else href), assocSet cache href href, false) := by
              unfold resolveTrackingRedirect
              simp only [hget]
            refine ⟨fun _ _ => by rw [hres], fun v2 hv2 => Option.noConfusion hv2,
              ?_, ?_, ?_⟩
            · rw [hres, hget]; rfl
            · rw [hres]
              show (resolveTrackingRedirect href oracle (assocSet cache href href)).2.2 = false
              rw [hsecond]
            · rw [hres]
              show (resolveTrackingRedirect href oracle (assocSet cache href href)).1 = href
              rw [hsecond]
              exact ite_self href
          · set resolved := if strStartsWith loc "http" then loc
              else resolveLocationAgainst (urlOrigin u) loc with hrdef
            have hresolved_ne : resolved ≠ "" := by
              rw [hrdef]
              by_cases hsw : strStartsWith loc "http" = true
              · rw [if_pos hsw]; exact hl
              · rw [if_neg hsw]
                exact strAppend_ne_empty_right _ _ hl
            have hres : resolveTrackingRedirect href oracle cache =
                (resolved, assocSet cache href resolved, true) := by
              unfold resolveTrackingRedirect
              simp only [hcv, hp, ho, if_neg hl, hrdef]
            have hget : assocGet (assocSet cache href resolved) href = some resolved :=
              assocGet_assocSet_of_none cache href resolved hcv
            have hsecond : resolveTrackingRedirect href oracle (assocSet cache href resolved) =
                ((if resolved = "" then href else resolved), assocSet cache href resolved,
                  false) := by
              unfold resolveTrackingRedirect
              simp only [hget]
            refine ⟨?_, fun v2 hv2 => Option.noConfusion hv2,
              ?_, ?_, ?_⟩
            · intro _ habs
              rcases habs with h1 | h1 | h1
              · exact Option.noConfusion h1
              · injection h1 with h2; exact Option.noConfusion h2
              · injection h1 with h2; injection h2 with h3; exact absurd h3 hl
            · rw [hres, hget]; rfl
            · rw [hres]
              show (resolveTrackingRedirect href oracle (assocSet cache href resolved)).2.2 = false
              rw [hsecond]
            · rw [hres]
              show (resolveTrackingRedirect href oracle (assocSet cache href resolved)).1 = resolved
              rw [hsecond, if_neg hresolved_ne]

/-- Witness for C5: a concrete tracking href with a failing network
oracle and an empty cache returns the href unchanged. -/
theorem resolveTrackingRedirect_soft_failure_witness :
    (resolveTrackingRedirect "https://links.x.com/t" (fun _ => none) []).1 =
      "https://links.x.com/t" :=
  (resolveTrackingRedirect_soft_failure.1 "https://links.x.com/t" (fun _ => none) []).1 rfl
    (Or.inl rfl)

/-- C5 counterexample: two anchors carrying the same tracking href in one
document.  The fan-out resolves both against the cache as it stands when
the Promise.all is issued - the freshly created, still-empty map, since
the cache is only written after a fetch settles - so the repeated
identical tracking href costs two HTTP requests, not at most one. -/
theorem resolveTrackingRedirect_concurrent_duplicates_cex :
    (resolveLinksFanOut (fun _ => some (some "/target"))
      [⟨"https://links.x.com/t", "a", false⟩, ⟨"https://links.x.com/t", "b", false⟩]).2 = 2 ∧
    1 < (resolveLinksFanOut (fun _ => some (some "/target"))
      [⟨"https://links.x.com/t", "a", false⟩, ⟨"https://links.x.com/t", "b", false⟩]).2 :=
  ⟨rfl, by decide⟩

lemma dedupByUrlKey_sublist : ∀ (l : List NLCandidate) (seen : List String),
    (dedupByUrlKey l seen).Sublist l := by
  intro l
  induction l with
  | nil => intro seen; exact List.Sublist.refl []
  | cons c rest ih =>
    intro seen
    unfold dedupByUrlKey
    by_cases hc : seen.contains (getUrlKey c.link) = true
    · rw [if_pos hc]
      exact (ih seen).cons c
    · rw [if_neg hc]
      exact (ih _).cons₂ c

lemma dedupByUrlKey_mem : ∀ (l : List NLCandidate) (seen : List String) (c : NLCandidate),
    c ∈ dedupByUrlKey l seen →
    seen.contains (getUrlKey c.link) = false ∧
    l.find? (fun d => decide (getUrlKey d.link = getUrlKey c.link)) = some c := by
  intro l
  induction l with
  | nil => intro seen c h; exact absurd h (List.not_mem_nil c)
  | cons c0 rest ih =>
    intro seen c h
    unfold dedupByUrlKey at h
    by_cases hc : seen.contains (getUrlKey c0.link) = true
    · rw [if_pos hc] at h
      obtain ⟨hns, hfind⟩ := ih seen c h
      have hne : getUrlKey c0.link ≠ getUrlKey c.link := by
        intro he
        rw [he] at hc
        rw [hc] at hns
        exact Bool.noConfusion hns
      refine ⟨hns, ?_⟩
      rw [List.find?_cons_of_neg, hfind]
      simp [hne]
    · rw [if_neg hc] at h
      rcases List.mem_cons.mp h with rfl | htail
      · refine ⟨by simpa using hc, ?_⟩
        rw [List.find?_cons_of_pos]
        simp
      · obtain ⟨hns, hfind⟩ := ih _ c htail
        have hns2 : (getUrlKey c0.link :: seen).contains (getUrlKey c.link) = false := hns
        rw [List.contains_cons] at hns2
        have h1 : (getUrlKey c.link == getUrlKey c0.link) = false := by
          cases hb : getUrlKey c.link == getUrlKey c0.link with
          | false => rfl
          | true => rw [hb] at hns2; simp at hns2
        have h2 : seen.contains (getUrlKey c.link) = false := by
          cases hb : seen.contains (getUrlKey c.link) with
          | false => rfl
          | true => rw [hb] at hns2; simp at hns2
        refine ⟨h2, ?_⟩
        rw [List.find?_cons_of_neg, hfind]
        simp only [decide_eq_true_eq]
        intro he
        rw [he] at h1
        simp at h1

lemma dedupByUrlKey_pairwise : ∀ (l : List NLCandidate) (seen : List String),
    List.Pairwise (fun a b => getUrlKey a.link ≠ getUrlKey b.link) (dedupByUrlKey l seen) := by
  intro l
  induction l with
  | nil => intro seen; exact List.Pairwise.nil
  | cons c0 rest ih =>
    intro seen
    unfold dedupByUrlKey
    by_cases hc : seen.contains (getUrlKey c0.link) = true
    · rw [if_pos hc]; exact ih seen
    · rw [if_neg hc]
      refine List.Pairwise.cons ?_ (ih _)
      intro b hb
      have h := (dedupByUrlKey_mem rest _ b hb).1
      rw [List.contains_cons] at h
      intro he
      rw [← he] at h
      simp at h

/-- C9: the finalised AI candidate list is deduplicated by getUrlKey
(fragment-stripped URL): no two entries share a key, each kept entry is
the first-seen candidate for its key, order is first-seen order (a
sublist of the normalized candidate list), and at most 10 items are
returned. -/
theorem ai_dedup_first_seen_capped :
    ∀ (resolveTracking : Bool) (oracle : RedirectOracle) (raw fl out : List NLCandidate),
      aiNormalizedFiltered resolveTracking oracle raw = Except.ok fl →
      aiFinalizeCandidates resolveTracking oracle raw = Except.ok out →
      out.length ≤ 10 ∧
      List.Pairwise (fun a b => getUrlKey a.link ≠ getUrlKey b.link) out ∧
      out.Sublist fl ∧
      ∀ c ∈ out, fl.find? (fun d => decide (getUrlKey d.link = getUrlKey c.link)) = some c := by
  intro rt oracle raw fl out hfl hout
  unfold aiFinalizeCandidates at hout
  rw [hfl] at hout
  injection hout with h
  subst h
  refine ⟨?_, ?_, ?_, ?_⟩
  · rw [List.length_take]
    exact min_le_left _ _
  · exact List.Pairwise.sublist (List.take_sublist _ _) (dedupByUrlKey_pairwise fl [])
  · exact (List.take_sublist _ _).trans (dedupByUrlKey_sublist fl [])
  · intro c hc
    exact (dedupByUrlKey_mem fl [] c ((List.take_sublist _ _).subset hc)).2

/-- Witness for C9 at a concrete candidate list containing a
fragment-variant duplicate and an unparseable link. -/
theorem ai_dedup_first_seen_capped_witness :
    [NLCandidate.mk "https://a.com/x#f" (some "T")].length ≤ 10 := by
  have h := ai_dedup_first_seen_capped false (fun _ => none)
    [⟨"https://a.com/x#f", some "T"⟩, ⟨"https://a.com/x", none⟩, ⟨"bad", none⟩]
    [⟨"https://a.com/x#f", some "T"⟩, ⟨"https://a.com/x", none⟩]
    [⟨"https://a.com/x#f", some "T"⟩] rfl rfl
  exact h.1

lemma aiRawCandidates_retry (f r : String)
    (h : parseNewsletterLinks f = [] ∧ strTrim f ≠ "") :
    aiRawCandidates f r = (parseNewsletterLinks r, 2) := by
  unfold aiRawCandidates
  rw [if_pos h]

lemma aiRawCandidates_noRetry (f r : String)
    (h : ¬ (parseNewsletterLinks f = [] ∧ strTrim f ≠ "")) :
    aiRawCandidates f r = (parseNewsletterLinks f, 1) := by
  unfold aiRawCandidates
  rw [if_neg h]

/-- C8: the AI extractor issues at most one retry model call, and a
second call happens exactly when the first response parses (by the
permissive parser: fence stripping, first bracketed span, JSON.parse) to
zero usable items while its trimmed text is non-empty; the retry
response is parsed with the same parser and is final.  The spec scenario
- a prose-prefixed first response followed by a bare valid JSON array -
yields the parsed array with exactly two model calls. -/
theorem ai_retry_exactly_once :
    (∀ firstText retryText : String,
      ((aiRawCandidates firstText retryText).2 = 1 ∨
        (aiRawCandidates firstText retryText).2 = 2) ∧
      ((aiRawCandidates firstText retryText).2 = 2 ↔
        (parseNewsletterLinks firstText = [] ∧ strTrim firstText ≠ "")) ∧
      ((aiRawCandidates firstText retryText).2 = 2 →
        (aiRawCandidates firstText retryText).1 = parseNewsletterLinks retryText) ∧
      ((aiRawCandidates firstText retryText).2 = 1 →
        (aiRawCandidates firstText retryText).1 = parseNewsletterLinks firstText)) ∧
    aiRawCandidates "Sure, here are the links: [...]"
        "[\x7b\"link\":\"https://a.com/x\"\x7d]" =
      ([NLCandidate.mk "https://a.com/x" none], 2) := by
  constructor
  · intro firstText retryText
    by_cases h : parseNewsletterLinks firstText = [] ∧ strTrim firstText ≠ ""
    · rw [aiRawCandidates_retry firstText retryText h]
      refine ⟨Or.inr rfl, ?_, ?_, ?_⟩
      · exact ⟨fun _ => h, fun _ => rfl⟩
      · intro _; rfl
      · intro habs; simp at habs
    · rw [aiRawCandidates_noRetry firstText retryText h]
      refine ⟨Or.inl rfl, ?_, ?_, ?_⟩
      · constructor
        · intro habs; simp at habs
        · intro hf; exact absurd hf h
      · intro habs; simp at habs
      · intro _; rfl
  · decide

/-- Witness for C8: the retry-implication hypothesis discharged at the
concrete malformed-then-valid response pair. -/
theorem ai_retry_exactly_once_witness :
    (aiRawCandidates "Sure, here are the links: [...]"
        "[\x7b\"link\":\"https://a.com/x\"\x7d]").1 =
      parseNewsletterLinks "[\x7b\"link\":\"https://a.com/x\"\x7d]" :=
  ((ai_retry_exactly_once.1 "Sure, here are the links: [...]"
      "[\x7b\"link\":\"https://a.com/x\"\x7d]").2.2.1) (by decide)

lemma normalizeItem_pubDate (a b : RssItem) (h : normalizeItem a = some b) :
    b.pubDate = a.pubDate := by
  simp only [normalizeItem] at h
  split at h
  · injection h with h2
    subst h2
    rfl
  · split at h
    · exact Option.noConfusion h
    · injection h with h2
      subst h2
      rfl

/-- C10: a mailbox message without an internalDate is not dropped: its
received time is the trigger instant now, so it passes any window whose
end is now (and whose start is not in the future), and every Story it
yields carries publishedAt equal to the ISO rendering of now; RSS items,
in contrast, are dropped whenever their pubDate fails to parse. -/
theorem gmail_missing_internalDate_uses_now :
    (∀ now : Int, gmailReceivedAt none now = now) ∧
    (∀ now s : Int, s ≤ now → gmailWindowKeep (gmailReceivedAt none now) s now = true) ∧
    (∀ (iso : Int → String) (source : SourceConfig) (messageId subject : String)
        (now s e : Int) (extracted : Except Unit (List NLCandidate)) (st : Story),
      st ∈ gmailMessageStories iso source messageId subject none now s e extracted →
      st.publishedAt = some (iso now)) ∧
    (∀ (parseDate : String → Option Int) (dateKey : Int → String) (source : SourceConfig)
        (items : List RssItem) (now : Int) (days : Nat) (window : Option (Int × Int)),
      (∀ it ∈ items, parseDate it.pubDate = none) →
      processRssItems parseDate dateKey source items now days window = []) := by
  refine ⟨fun _ => rfl, ?_, ?_, ?_⟩
  · intro now s hs
    rw [gmailWindowKeep_iff]
    show ¬ (gmailReceivedAt none now < s ∨ now < gmailReceivedAt none now)
    rw [show gmailReceivedAt none now = now from rfl]
    omega
  · intro iso source messageId subject now s e extracted st hmem
    simp only [gmailMessageStories] at hmem
    split at hmem
    · exact absurd hmem (List.not_mem_nil st)
    · split at hmem
      · exact absurd hmem (List.not_mem_nil st)
      · simp only [List.mem_map] at hmem
        obtain ⟨li, -, rfl⟩ := hmem
        rfl
  · intro parseDate dateKey source items now days window h
    unfold processRssItems
    have hfil : ((items.filterMap normalizeItem).filter fun item =>
        match parseDate item.pubDate with
        | none => false
        | some publishedAt =>
          match window with
          | some (s, e) => isWithinWindow publishedAt s e
          | none => dateKey publishedAt = dateKey now &&
              isWithinLookback publishedAt now days) = [] := by
      rw [List.filter_eq_nil_iff]
      intro a ha
      obtain ⟨a0, ha0, heq⟩ := List.mem_filterMap.mp ha
      rw [normalizeItem_pubDate a0 a heq, h a0 ha0]
      simp
    rw [hfil]
    rfl

/-- Witness for C10: the window hypothesis discharged at a concrete
instant, and a story emitted for a concrete message carries now's
timestamp. -/
theorem gmail_missing_internalDate_uses_now_witness :
    gmailWindowKeep (gmailReceivedAt none 5) 0 5 = true ∧
    (Story.mk "m:0" "S" "https://a.com/x" "https://a.com/x" "N" "U" (some "iso5") (some "m")
        (some "S")).publishedAt = some "iso5" := by
  refine ⟨gmail_missing_internalDate_uses_now.2.1 5 0 (by decide), ?_⟩
  exact (gmail_missing_internalDate_uses_now.2.2.1 (fun _ => "iso5")
    { id := "src", name := "N", type := SourceType.gmail, url := "U" } "m" "S" 5 0 5
    (Except.ok [⟨"https://a.com/x", none⟩])
    (Story.mk "m:0" "S" "https://a.com/x" "https://a.com/x" "N" "U" (some "iso5") (some "m")
      (some "S")) (by decide))

lemma char_toLower_low (c d : Char) (hd : d.toNat < 65 ∨ (90 < d.toNat ∧ d.toNat < 97))
    (h : c.toLower = d) : c = d := by
  simp only [Char.toLower] at h
  split at h
  case isTrue hc =>
    exfalso
    have hv : (c.toNat + 32).isValidChar := by
      left
      omega
    have h2 := congrArg Char.toNat h
    rw [show (Char.ofNat (c.toNat + 32)).toNat = c.toNat + 32 from by
      rw [Char.ofNat, dif_pos hv]; rfl] at h2
    omega
  case isFalse => exact h

lemma isPrefixOf_iff_exists (p l : List Char) :
    p.isPrefixOf l = true ↔ ∃ t, l = p ++ t := by
  rw [List.isPrefixOf_iff_prefix]
  constructor
  · rintro ⟨t, ht⟩; exact ⟨t, ht.symm⟩
  · rintro ⟨t, ht⟩; exact ⟨t, ht.symm⟩


lemma takeWhile_append_all (p : Char → Bool) (l1 l2 : List Char) (h : ∀ x ∈ l1, p x = true) :
    (l1 ++ l2).takeWhile p = l1 ++ l2.takeWhile p := by
  induction l1 with
  | nil => rfl
  | cons x xs ih =>
    rw [List.cons_append, List.takeWhile_cons, h x (List.mem_cons_self _ _), if_pos rfl,
      ih fun y hy => h y (List.mem_cons_of_mem _ hy), List.cons_append]

lemma dropWhile_append_all (p : Char → Bool) (l1 l2 : List Char) (h : ∀ x ∈ l1, p x = true) :
    (l1 ++ l2).dropWhile p = l2.dropWhile p := by
  induction l1 with
  | nil => rfl
  | cons x xs ih =>
    rw [List.cons_append, List.dropWhile_cons, h x (List.mem_cons_self _ _), if_pos rfl]
    exact ih fun y hy => h y (List.mem_cons_of_mem _ hy)

lemma parseUrl_authority_fields (s : String) (u : Url) (pre t : List Char)
    (hl : s.toList = pre ++ ':' :: '/' :: '/' :: t)
    (hpre : ∀ x ∈ pre, x ≠ ':')
    (hp : parseUrl s = some u) :
    u.scheme = strToLower ⟨pre⟩ ∧ u.hasAuthority = true := by
  have hpre2 : ∀ x ∈ pre, (decide (x ≠ ':')) = true := fun x hx => by
    simp [hpre x hx]
  simp only [parseUrl] at hp
  rw [hl] at hp
  rw [takeWhile_append_all _ pre _ hpre2, dropWhile_append_all _ pre _ hpre2] at hp
  simp only [List.takeWhile_cons, List.dropWhile_cons, decide_not, ne_eq, decide_True,
    Bool.not_true, Bool.false_eq_true, if_false, List.append_nil] at hp
  -- hp now has afterScheme = ':' :: '/' :: '/' :: t and schemeCs = pre
  split at hp
  · exact Option.noConfusion hp
  · split at hp
    · exact Option.noConfusion hp
    · split at hp
      · exact Option.noConfusion hp
      · split at hp
        · exact Option.noConfusion hp
        · split at hp
          · exact Option.noConfusion hp
          · split at hp
            · exact Option.noConfusion hp
            · injection hp with h2
              subst h2
              exact ⟨rfl, rfl⟩

lemma char_ne_colon_of_toLower (x lc : Char) (hxl : x.toLower = lc) (hlc : lc ≠ ':') :
    x ≠ ':' := by
  intro hx
  subst hx
  rw [show (':' : Char).toLower = ':' from by decide] at hxl
  exact hlc hxl.symm


lemma parseUrl_scheme_of_httpPrefix (s : String) (u : Url)
    (hs : hasHttpSchemePrefix s = true) (hp : parseUrl s = some u) :
    (u.scheme = "http" ∨ u.scheme = "https") ∧ u.hasAuthority = true := by
  unfold hasHttpSchemePrefix at hs
  rw [Bool.or_eq_true] at hs
  cases hs with
  | inl hs =>
    unfold strStartsWith at hs
    rw [isPrefixOf_iff_exists] at hs
    obtain ⟨t2, ht⟩ := hs
    have ht2 : s.toList.map Char.toLower = 'h' :: 't' :: 't' :: 'p' :: ':' :: '/' :: '/' :: t2 := by
      have hrw : (strToLower s).toList = s.toList.map Char.toLower := rfl
      rw [hrw] at ht
      rw [ht]
      rfl
    obtain ⟨a, r1, hl1, ha, ht2⟩ := List.map_eq_cons_iff.mp ht2
    obtain ⟨b, r2, hl2, hb, ht2⟩ := List.map_eq_cons_iff.mp ht2
    obtain ⟨c, r3, hl3, hc, ht2⟩ := List.map_eq_cons_iff.mp ht2
    obtain ⟨d, r4, hl4, hd, ht2⟩ := List.map_eq_cons_iff.mp ht2
    obtain ⟨e, r5, hl5, he, ht2⟩ := List.map_eq_cons_iff.mp ht2
    obtain ⟨f, r6, hl6, hf, ht2⟩ := List.map_eq_cons_iff.mp ht2
    obtain ⟨g, t, hl7, hg, -⟩ := List.map_eq_cons_iff.mp ht2
    have he2 : e = ':' := char_toLower_low e ':' (Or.inl (by decide)) he
    have hf2 : f = '/' := char_toLower_low f '/' (Or.inl (by decide)) hf
    have hg2 : g = '/' := char_toLower_low g '/' (Or.inl (by decide)) hg
    subst he2 hf2 hg2
    have hl : s.toList = a :: b :: c :: d :: ':' :: '/' :: '/' :: t := by
      rw [hl1, hl2, hl3, hl4, hl5, hl6, hl7]
    have hpre : ∀ x ∈ [a, b, c, d], x ≠ ':' := by
      intro x hx
      simp only [List.mem_cons, List.not_mem_nil, or_false] at hx
      rcases hx with rfl | rfl | rfl | rfl
      · exact char_ne_colon_of_toLower x 'h' ha (by decide)
      · exact char_ne_colon_of_toLower x 't' hb (by decide)
      · exact char_ne_colon_of_toLower x 't' hc (by decide)
      · exact char_ne_colon_of_toLower x 'p' hd (by decide)
    have hfields := parseUrl_authority_fields s u [a, b, c, d] t hl hpre hp
    refine ⟨Or.inl ?_, hfields.2⟩
    rw [hfields.1]
    show (⟨[a, b, c, d].map Char.toLower⟩ : String) = "http"
    simp only [List.map_cons, List.map_nil, ha, hb, hc, hd]
  | inr hs =>
    unfold strStartsWith at hs
    rw [isPrefixOf_iff_exists] at hs
    obtain ⟨t2, ht⟩ := hs
    have ht2 : s.toList.map Char.toLower =
        'h' :: 't' :: 't' :: 'p' :: 's' :: ':' :: '/' :: '/' :: t2 := by
      have hrw : (strToLower s).toList = s.toList.map Char.toLower := rfl
      rw [hrw] at ht
      rw [ht]
      rfl
    obtain ⟨a, r1, hl1, ha, ht2⟩ := List.map_eq_cons_iff.mp ht2
    obtain ⟨b, r2, hl2, hb, ht2⟩ := List.map_eq_cons_iff.mp ht2
    obtain ⟨c, r3, hl3, hc, ht2⟩ := List.map_eq_cons_iff.mp ht2
    obtain ⟨d, r4, hl4, hd, ht2⟩ := List.map_eq_cons_iff.mp ht2
    obtain ⟨e, r5, hl5, he, ht2⟩ := List.map_eq_cons_iff.mp ht2
    obtain ⟨f, r6, hl6, hf, ht2⟩ := List.map_eq_cons_iff.mp ht2
    obtain ⟨g, r7, hl7, hg, ht2⟩ := List.map_eq_cons_iff.mp ht2
    obtain ⟨i, t, hl8, hi, -⟩ := List.map_eq_cons_iff.mp ht2
    have hf2 : f = ':' := char_toLower_low f ':' (Or.inl (by decide)) hf
    have hg2 : g = '/' := char_toLower_low g '/' (Or.inl (by decide)) hg
    have hi2 : i = '/' := char_toLower_low i '/' (Or.inl (by decide)) hi
    subst hf2 hg2 hi2
    have hl : s.toList = a :: b :: c :: d :: e :: ':' :: '/' :: '/' :: t := by
      rw [hl1, hl2, hl3, hl4, hl5, hl6, hl7, hl8]
    have hpre : ∀ x ∈ [a, b, c, d, e], x ≠ ':' := by
      intro x hx
      simp only [List.mem_cons, List.not_mem_nil, or_false] at hx
      rcases hx with rfl | rfl | rfl | rfl | rfl
      · exact char_ne_colon_of_toLower x 'h' ha (by decide)
      · exact char_ne_colon_of_toLower x 't' hb (by decide)
      · exact char_ne_colon_of_toLower x 't' hc (by decide)
      · exact char_ne_colon_of_toLower x 'p' hd (by decide)
      · exact char_ne_colon_of_toLower x 's' he (by decide)
    have hfields := parseUrl_authority_fields s u [a, b, c, d, e] t hl hpre hp
    refine ⟨Or.inr ?_, hfields.2⟩
    rw [hfields.1]
    show (⟨[a, b, c, d, e].map Char.toLower⟩ : String) = "https"
    simp only [List.map_cons, List.map_nil, ha, hb, hc, hd, he]


lemma hasHttpSchemePrefix_append (pre rest : String)
    (hpre : pre = "http://" ∨ pre = "https://") :
    hasHttpSchemePrefix (pre ++ rest) = true := by
  unfold hasHttpSchemePrefix strStartsWith strToLower
  rw [Bool.or_eq_true]
  have htl : ((⟨(pre ++ rest).toList.map Char.toLower⟩ : String)).toList
      = pre.toList.map Char.toLower ++ rest.toList.map Char.toLower := by
    show (pre ++ rest).toList.map Char.toLower = _
    rw [show (pre ++ rest).toList = pre.toList ++ rest.toList from String.data_append pre rest]
    exact List.map_append _ _ _
  cases hpre with
  | inl h =>
    left
    rw [isPrefixOf_iff_exists, htl, h]
    exact ⟨rest.toList.map Char.toLower, rfl⟩
  | inr h =>
    right
    rw [isPrefixOf_iff_exists, htl, h]
    exact ⟨rest.toList.map Char.toLower, rfl⟩

lemma serializeUrl_httpPrefix (u : Url) (hs : u.scheme = "http" ∨ u.scheme = "https")
    (ha : u.hasAuthority = true) : hasHttpSchemePrefix (serializeUrl u) = true := by
  unfold serializeUrl
  rw [ha]
  cases hs with
  | inl h =>
    rw [h]
    have : ("http" : String) ++ (if (true : Bool) = true then "://" else ":") = "http://" := rfl
    rw [show ("http" : String) ++ (if (true : Bool) = true then "://" else ":") ++ u.host ++
        (match u.port with
         | some p => ":" ++ toString p
         | none => "") ++ u.path ++
        (match u.query with
         | some q => "?" ++ q
         | none => "") ++
        (match u.fragment with
         | some f => "#" ++ f
         | none => "") =
      "http://" ++ (u.host ++
        (match u.port with
         | some p => ":" ++ toString p
         | none => "") ++ u.path ++
        (match u.query with
         | some q => "?" ++ q
         | none => "") ++
        (match u.fragment with
         | some f => "#" ++ f
         | none => "")) from by
      simp only [String.append_assoc]
      rfl]
    exact hasHttpSchemePrefix_append _ _ (Or.inl rfl)
  | inr h =>
    rw [h]
    rw [show ("https" : String) ++ (if (true : Bool) = true then "://" else ":") ++ u.host ++
        (match u.port with
         | some p => ":" ++ toString p
         | none => "") ++ u.path ++
        (match u.query with
         | some q => "?" ++ q
         | none => "") ++
        (match u.fragment with
         | some f => "#" ++ f
         | none => "") =
      "https://" ++ (u.host ++
        (match u.port with
         | some p => ":" ++ toString p
         | none => "") ++ u.path ++
        (match u.query with
         | some q => "?" ++ q
         | none => "") ++
        (match u.fragment with
         | some f => "#" ++ f
         | none => "")) from by
      simp only [String.append_assoc]
      rfl]
    exact hasHttpSchemePrefix_append _ _ (Or.inr rfl)

lemma normalizeUrl_cases (s0 : String) :
    normalizeUrl s0 = "" ∨ ∃ u, parseUrl (stripTrailingPunct (strTrim s0)) = some u ∧
      hasHttpSchemePrefix (stripTrailingPunct (strTrim s0)) = true ∧
      normalizeUrl s0 = serializeUrl u := by
  unfold normalizeUrl
  by_cases hh : hasHttpSchemePrefix (stripTrailingPunct (strTrim s0)) = true
  · rw [if_neg (by simp [hh])]
    cases hp : parseUrl (stripTrailingPunct (strTrim s0)) with
    | none => left; rfl
    | some u => right; exact ⟨u, rfl, hh, rfl⟩
  · rw [if_pos (by simpa using hh)]
    left
    rfl

lemma normalizeUrl_httpPrefix (s0 : String) (h : normalizeUrl s0 ≠ "") :
    hasHttpSchemePrefix (normalizeUrl s0) = true := by
  rcases normalizeUrl_cases s0 with h0 | ⟨u, hp, hh, heq⟩
  · exact absurd h0 h
  · rw [heq]
    exact serializeUrl_httpPrefix u (parseUrl_scheme_of_httpPrefix _ u hh hp).1
      (parseUrl_scheme_of_httpPrefix _ u hh hp).2

lemma lowerPreservesSchemeStart (d p : String) (hp : p.toList.map Char.toLower = p.toList)
    (h : strStartsWith d p = true) : strStartsWith (strToLower d) p = true := by
  unfold strStartsWith at h ⊢
  rw [isPrefixOf_iff_exists] at h ⊢
  obtain ⟨t, ht⟩ := h
  refine ⟨t.map Char.toLower, ?_⟩
  show (strToLower d).toList = _
  have : (strToLower d).toList = d.toList.map Char.toLower := rfl
  rw [this, ht, List.map_append, hp]

lemma strStartsWith_http_implies_hasPrefix (d : String)
    (h : (strStartsWith d "http://" || strStartsWith d "https://") = true) :
    hasHttpSchemePrefix d = true := by
  unfold hasHttpSchemePrefix
  rw [Bool.or_eq_true] at h ⊢
  cases h with
  | inl h => exact Or.inl (lowerPreservesSchemeStart d "http://" (by decide) h)
  | inr h => exact Or.inr (lowerPreservesSchemeStart d "https://" (by decide) h)

lemma mapExcept_mem (f : NLCandidate → Except Unit (Option NLCandidate)) :
    ∀ (l : List NLCandidate) (ys : List (Option NLCandidate)),
      mapExcept f l = Except.ok ys → ∀ y ∈ ys, ∃ x ∈ l, f x = Except.ok y := by
  intro l
  induction l with
  | nil =>
    intro ys h y hy
    injection h with h2
    subst h2
    exact absurd hy (List.not_mem_nil y)
  | cons x xs ih =>
    intro ys h y hy
    unfold mapExcept at h
    cases hfx : f x with
    | error e => rw [hfx] at h; exact Except.noConfusion h
    | ok y0 =>
      rw [hfx] at h
      cases hrest : mapExcept f xs with
      | error e => rw [hrest] at h; exact Except.noConfusion h
      | ok ys0 =>
        rw [hrest] at h
        injection h with h2
        subst h2
        rcases List.mem_cons.mp hy with rfl | hy2
        · exact ⟨x, List.mem_cons_self _ _, hfx⟩
        · obtain ⟨x2, hx2, hfx2⟩ := ih ys0 hrest y hy2
          exact ⟨x2, List.mem_cons_of_mem _ hx2, hfx2⟩

lemma aiNormalizeCandidate_link (oracle : RedirectOracle) (r c : NLCandidate)
    (h : aiNormalizeCandidate false oracle r = Except.ok (some c)) :
    hasHttpSchemePrefix c.link = true := by
  unfold aiNormalizeCandidate at h
  by_cases hn : normalizeUrl r.link = ""
  · rw [if_pos hn] at h
    injection h with h2
    exact Option.noConfusion h2
  · rw [if_neg hn] at h
    cases hu : unwrapTrackingUrl (normalizeUrl r.link) with
    | error e => rw [hu] at h; exact Except.noConfusion h
    | ok pr =>
      rw [hu] at h
      obtain ⟨href, unwrapped⟩ := pr
      simp only [Bool.false_and, false_and, if_false, Except.ok.injEq, Option.some.injEq] at h
      subst h
      show hasHttpSchemePrefix href = true
      cases unwrapped with
      | false =>
        have heq := (unwrapTrackingUrl_characterisation (normalizeUrl r.link)).2.1 href hu
        rw [heq]
        exact normalizeUrl_httpPrefix r.link hn
      | true =>
        have := ((unwrapTrackingUrl_characterisation (normalizeUrl r.link)).2.2.1 href hu).2.1
        exact strStartsWith_http_implies_hasPrefix href this

lemma normalizeItem_link_ne (a b : RssItem) (h : normalizeItem a = some b) : b.link ≠ "" := by
  simp only [normalizeItem] at h
  split at h
  case isTrue hc =>
    injection h with h2
    subst h2
    exact hc
  case isFalse hc =>
    split at h
    · exact Option.noConfusion h
    case isFalse hg =>
      injection h with h2
      subst h2
      exact hg

/-- C1 (amended): the absolute-http(s) invariant does not hold for every
source branch.  What the code guarantees: the rss branch emits only
stories with a non-empty url (link or guid), but performs no URL-shape
validation; the url branch passes the configured url through verbatim,
unvalidated; the gmail AI branch (with tracking-redirect resolution
disabled, so that no redirect response rewrites a link) emits only links
that are absolute http(s): an http(s) scheme prefix accepted by the URL
parser, enforced by normalizeUrl, the unwrap target check and the final
parseability filter. -/
theorem story_url_guarantees :
    (∀ (parseDate : String → Option Int) (dateKey : Int → String) (source : SourceConfig)
        (fetchResult : Except Unit (List RssItem)) (now : Int) (days : Nat)
        (window : Option (Int × Int)) (st : Story),
      st ∈ fetchRssItems parseDate dateKey source fetchResult now days window →
      st.url ≠ "") ∧
    (∀ (parseDate : String → Option Int) (dateKey : Int → String)
        (rssFetch : SourceConfig → Except Unit (List RssItem)) (env : Option GmailEnv)
        (tokenExchange : Except Unit String)
        (gmailRest : SourceConfig → Nat → String → Except Unit (List Story))
        (now : Int) (days : Nat) (window : Option (Int × Int)) (source : SourceConfig),
      source.type = SourceType.url →
      sourceBranch parseDate dateKey rssFetch env tokenExchange gmailRest now days window
          source = Except.ok [urlStory source] ∧ (urlStory source).url = source.url) ∧
    (∀ (oracle : RedirectOracle) (raw out : List NLCandidate),
      aiFinalizeCandidates false oracle raw = Except.ok out →
      ∀ c ∈ out, isAbsHttpUrl c.link = true) := by
  refine ⟨?_, ?_, ?_⟩
  · intro parseDate dateKey source fetchResult now days window st hmem
    unfold fetchRssItems at hmem
    cases fetchResult with
    | error e => exact absurd hmem (List.not_mem_nil st)
    | ok items =>
      unfold processRssItems at hmem
      simp only [List.mem_map, List.mem_filter, List.mem_filterMap] at hmem
      obtain ⟨item, ⟨⟨a, ha, hna⟩, -⟩, rfl⟩ := hmem
      exact normalizeItem_link_ne a item hna
  · intro parseDate dateKey rssFetch env tokenExchange gmailRest now days window source htyp
    unfold sourceBranch
    rw [htyp]
    exact ⟨rfl, rfl⟩
  · intro oracle raw out hout c hc
    unfold aiFinalizeCandidates at hout
    cases hfl : aiNormalizedFiltered false oracle raw with
    | error e => rw [hfl] at hout; exact Except.noConfusion hout
    | ok fl =>
      rw [hfl] at hout
      injection hout with h2
      subst h2
      have hcfl : c ∈ fl :=
        ((List.take_sublist _ _).trans (dedupByUrlKey_sublist fl [])).subset hc
      unfold aiNormalizedFiltered at hfl
      cases hme : mapExcept (aiNormalizeCandidate false oracle) raw with
      | error e => rw [hme] at hfl; exact Except.noConfusion hfl
      | ok normalized =>
        rw [hme] at hfl
        injection hfl with h3
        subst h3
        rw [List.mem_filter] at hcfl
        obtain ⟨hmem2, hpred⟩ := hcfl
        rw [List.mem_filterMap] at hmem2
        obtain ⟨o, ho, hoc⟩ := hmem2
        obtain ⟨r, hr, hfr⟩ := mapExcept_mem _ raw normalized hme o ho
        rw [show id o = o from rfl] at hoc
        rw [hoc] at hfr
        have hpf := aiNormalizeCandidate_link oracle r c hfr
        unfold isAbsHttpUrl
        rw [Bool.and_eq_true]
        refine ⟨hpf, ?_⟩
        have hp2 := of_decide_eq_true hpred
        exact hp2.2

/-- C1 counterexample: a configured url-type source whose url is not a
URL at all yields a Story carrying that unparseable url - the dispatcher
emits it without any check, so the claimed invariant fails. -/
theorem story_url_not_validated_cex :
    getStoriesFromSources (fun _ => none) (fun _ => "") (fun _ => Except.ok []) none
        (Except.error ()) (fun _ _ _ => Except.ok [])
        [{ id := "s1", name := "Bad", type := SourceType.url, url := "not a url" }] 7 0 none =
      Except.ok [{ id := "s1", title := "Bad", url := "not a url",
                   hackerNewsUrl := "not a url", sourceName := "Bad",
                   sourceUrl := "not a url" }] ∧
    parseUrl "not a url" = none := ⟨rfl, rfl⟩

/-- Witness for C1: the AI-branch guarantee applied at a concrete
candidate list. -/
theorem story_url_guarantees_witness :
    isAbsHttpUrl "https://a.com/x" = true :=
  story_url_guarantees.2.2 (fun _ => none) [⟨"https://a.com/x", none⟩]
    [⟨"https://a.com/x", none⟩] rfl ⟨"https://a.com/x", none⟩ (by decide)

/-- C2 counterexample: with two enabled sources - a gmail source whose
credential guard throws (env present but GMAIL_CLIENT_ID missing) and a
healthy rss source that on its own yields a story - the dispatcher
rejects the whole run (Promise.all semantics) and returns no stories at
all, so the other source's results are lost, refuting the claim that any
single branch exception leaves the other sources' results intact. -/
theorem dispatcher_gmail_failure_aborts_cex :
    getStoriesFromSources (fun _ => some 50) (fun _ => "k")
        (fun _ => Except.ok [{ title := "T", link := "https://a.example.com/x", guid := "",
                               pubDate := "d" }])
        (some { clientId := none, clientSecret := some "sec", refreshToken := some "ref" })
        (Except.ok "tok") (fun _ _ _ => Except.ok [])
        [{ id := "g", name := "G", type := SourceType.gmail, url := "gmail://News",
           label := some "News" },
         { id := "r", name := "R", type := SourceType.rss, url := "https://r.example.com/feed" }]
        7 100 (some (0, 100)) = Except.error () ∧
    fetchRssItems (fun _ => some 50) (fun _ => "k")
        { id := "r", name := "R", type := SourceType.rss, url := "https://r.example.com/feed" }
        (Except.ok [{ title := "T", link := "https://a.example.com/x", guid := "",
                      pubDate := "d" }]) 100 7 (some (0, 100)) =
      [{ id := "https://a.example.com/x", title := "T", url := "https://a.example.com/x",
         hackerNewsUrl := "https://a.example.com/x", sourceName := "R",
         sourceUrl := "https://r.example.com/feed", publishedAt := some "d" }] := ⟨rfl, rfl⟩

/-- C2 (amended): failure isolation holds for rss sources - fetchRssItems
catches its own fetch errors and contributes an empty list, so a source
with a guaranteed fetch failure does not prevent another enabled source
from contributing its stories - but it is not provided by the dispatcher
itself: an exception escaping a gmail branch rejects the whole
Promise.all and aborts getStoriesFromSources (see the counterexample). -/
theorem rss_failure_isolated :
    ∀ (parseDate : String → Option Int) (dateKey : Int → String)
      (rssFetch : SourceConfig → Except Unit (List RssItem)) (env : Option GmailEnv)
      (tokenExchange : Except Unit String)
      (gmailRest : SourceConfig → Nat → String → Except Unit (List Story))
      (badRss good : SourceConfig) (lb : Nat) (now : Int) (window : Option (Int × Int)),
      badRss.type = SourceType.rss → rssFetch badRss = Except.error () →
      good.type = SourceType.url →
      isEnabled badRss = true → isEnabled good = true →
      getStoriesFromSources parseDate dateKey rssFetch env tokenExchange gmailRest
        [badRss, good] lb now window = Except.ok [urlStory good] := by
  intro parseDate dateKey rssFetch env tokenExchange gmailRest badRss good lb now window
    h1 h2 h3 h4 h5
  unfold getStoriesFromSources
  have hfil : [badRss, good].filter isEnabled = [badRss, good] := by
    simp [List.filter_cons, h4, h5]
  rw [hfil]
  simp only [List.map_cons, List.map_nil]
  have hb1 : sourceBranch parseDate dateKey rssFetch env tokenExchange gmailRest now lb
      window badRss = Except.ok [] := by
    unfold sourceBranch
    simp only [h1]
    unfold fetchRssItems
    rw [h2]
  have hb2 : sourceBranch parseDate dateKey rssFetch env tokenExchange gmailRest now lb
      window good = Except.ok [urlStory good] := by
    unfold sourceBranch
    simp only [h3]
    rfl
  rw [hb1, hb2]
  rfl

/-- Witness for C2: the generalized isolation theorem applied to a
concrete failing rss source next to a url source. -/
theorem rss_failure_isolated_witness :
    getStoriesFromSources (fun _ => none) (fun _ => "") (fun _ => Except.error ()) none
        (Except.ok "t") (fun _ _ _ => Except.ok [])
        [{ id := "b", name := "B", type := SourceType.rss, url := "https://bad.example.com" },
         { id := "g2", name := "G2", type := SourceType.url, url := "https://g.example.com" }]
        7 0 none =
      Except.ok [urlStory { id := "g2", name := "G2", type := SourceType.url,
                            url := "https://g.example.com" }] :=
  rss_failure_isolated (fun _ => none) (fun _ => "") (fun _ => Except.error ()) none
    (Except.ok "t") (fun _ _ _ => Except.ok [])
    { id := "b", name := "B", type := SourceType.rss, url := "https://bad.example.com" }
    { id := "g2", name := "G2", type := SourceType.url, url := "https://g.example.com" }
    7 0 none rfl rfl rfl (by decide) (by decide)
